import Mathlib

/-!
# SF container reader: header validation and line extraction

A shallow embedding of `src/main.c` (the SF file parser) and a verification
development about it.

Modelling conventions.

* A byte is a `Fin 256`; an opened regular file is the list of its bytes.
* A file descriptor is the file together with its current position.  `read`
  on a regular file delivers the bytes between the position and the end of the
  file, at most the requested count, and advances the position by what it
  delivered.  `lseek` to a negative position fails and leaves the position
  where it was (the source never looks at the value `lseek` returns).
* Multi-byte fields are decoded in little-endian order (the native order of
  the hosts the program targets).
* `fstat` is taken to succeed.  Each `malloc` call is answered by the
  environment: a function from the requested size to `true` (a block of that
  size is returned) or `false` (`NULL`).  The requested size `section->size + 1`
  is computed in `unsigned int`, so it wraps to 0 at size 0xFFFFFFFF.  A run
  that stores outside the block it allocated has left defined behaviour; its
  result is `Outcome.undefined`.
* Counters of type `int` are natural numbers or integers: a counter is bounded
  by the payload length plus one, so it stays inside the `int` range for
  payloads below 2 GiB.  The arguments `sectionNumber` and `lineNumber` are
  arbitrary integers.
* What the verbose functions print is their result: `Except Reason _`, where
  `Reason.message` is the exact text written to standard output.  The silent
  functions return only their `int` status, modelled with `Option` / `Bool`.
-/

set_option maxRecDepth 8192

namespace SF

/-! ## Constants -/

abbrev Byte := Fin 256

abbrev File := List Byte

def MAX_SECTIONS : Nat := 16
def MAX_LINE_LENGTH : Nat := 1024
def SECTION_HEADER_SIZE : Nat := 17
def MAGIC_VALUE : Byte := 122
def MIN_VERSION : Nat := 84
def MAX_VERSION : Nat := 163
def VALID_SECTION_TYPES_COUNT : Nat := 5
def VALID_SECTION_TYPES : List Nat := [80, 43, 38, 23, 81]

/-! ## Data model -/

/-- One section descriptor: `name` is the 8-byte array (7 bytes read from the
file and the terminator written after them). -/
structure SectionHeader where
  name : List Byte
  type : Nat
  offset : Nat
  size : Nat
  deriving DecidableEq, Repr

/-- The header as `readSFHeader` fills it.  `sections` holds the slots of the
16-slot array that have been written, in index order. -/
structure SFHeader where
  version : Nat
  no_of_sections : Nat
  sections : List SectionHeader
  header_size : Nat
  magic : Byte
  deriving DecidableEq, Repr

/-- The failure kinds the program reports. -/
inductive Reason where
  | invalidFile
  | wrongMagic
  | wrongVersion
  | wrongSectNr
  | wrongSectTypes
  | invalidSection
  | memoryError
  | invalidLine
  deriving DecidableEq, Repr

/-- The text printed for each failure kind. -/
def Reason.message : Reason → String
  | .invalidFile => "ERROR\n invalid file"
  | .wrongMagic => "ERROR\n wrong magic"
  | .wrongVersion => "ERROR\n wrong version"
  | .wrongSectNr => "ERROR\n wrong sect_nr"
  | .wrongSectTypes => "ERROR\n wrong sect_types"
  | .invalidSection => "ERROR\n invalid section"
  | .memoryError => "ERROR\n memory error"
  | .invalidLine => "ERROR\n invalid line"

/-! ## File descriptors -/

/-- An open descriptor: the file and the current position. -/
structure Fd where
  file : File
  pos : Nat
  deriving DecidableEq, Repr

/-- The call `open(path, O_RDONLY)` on an existing regular file. -/
def openFile (file : File) : Fd := ⟨file, 0⟩

/-- The call `lseek(fd, off, SEEK_END)`: a negative target is refused and the
position is unchanged. -/
def lseekEnd (fd : Fd) (off : Int) : Fd :=
  let target : Int := (fd.file.length : Int) + off
  if target < 0 then fd else { fd with pos := target.toNat }

/-- The call `lseek(fd, off, SEEK_SET)` with an unsigned offset. -/
def lseekSet (fd : Fd) (off : Nat) : Fd := { fd with pos := off }

/-- The call `read(fd, buf, count)`: the bytes delivered and the descriptor
afterwards.  The value `read` returns is the length of the delivered list. -/
def read (fd : Fd) (count : Nat) : List Byte × Fd :=
  let got := (fd.file.drop fd.pos).take count
  (got, { fd with pos := fd.pos + got.length })

/-! ## Memory -/

/-- What a run of a function yields: it returns `a`, or it leaves defined
behaviour by storing outside an allocated block. -/
inductive Outcome (α : Type) where
  | done (a : α)
  | undefined
  deriving DecidableEq, Repr

/-- One `malloc` call as the environment answers it, by requested size: `true`
when a block of that size is returned, `false` when `NULL` is returned. -/
abbrev Malloc := Nat → Bool

/-- The argument `section->size + 1` of `malloc`, computed in `unsigned int`. -/
def allocSize (size : Nat) : Nat := (size + 1) % 2 ^ 32

/-- Little-endian value of a byte sequence. -/
def leValue : List Byte → Nat
  | [] => 0
  | b :: bs => b.val + 256 * leValue bs

/-! ## Header reader -/

/-- The inner loop over `VALID_SECTION_TYPES` that sets `valid_type`. -/
def validType (t : Nat) : Bool := VALID_SECTION_TYPES.any (fun v => t == v)

/-- The descriptor loop of `readSFHeader`: `k` iterations remain, `acc` holds
the descriptors already stored. -/
def readSections : Nat → Fd → List SectionHeader → Except Reason (List SectionHeader)
  | 0, _, acc => .ok acc
  | k + 1, fd, acc =>
    let (name, fd1) := read fd 7
    if name.length ≠ 7 then .error .invalidFile else
    let (ty, fd2) := read fd1 2
    if ty.length ≠ 2 then .error .invalidFile else
    if ¬ validType (leValue ty) then .error .wrongSectTypes else
    let (off, fd3) := read fd2 4
    if off.length ≠ 4 then .error .invalidFile else
    let (sz, fd4) := read fd3 4
    if sz.length ≠ 4 then .error .invalidFile else
    readSections k fd4 (acc ++ [⟨name ++ [0], leValue ty, leValue off, leValue sz⟩])

/-- The function `readSFHeader`, from the `fstat` result on. -/
def readSFHeader (file : File) : Except Reason SFHeader :=
  let fd := openFile file
  if file.length < 3 then .error .invalidFile else
  let (magic, fd1) := read (lseekEnd fd (-1)) 1
  if magic.length ≠ 1 then .error .invalidFile else
  if magic ≠ [MAGIC_VALUE] then .error .wrongMagic else
  let (hs, fd2) := read (lseekEnd fd1 (-3)) 2
  if hs.length ≠ 2 then .error .invalidFile else
  let header_size := leValue hs
  let fd3 := lseekEnd fd2 (-(header_size : Int))
  let (ver, fd4) := read fd3 4
  if ver.length ≠ 4 then .error .invalidFile else
  let version := leValue ver
  if version < MIN_VERSION ∨ version > MAX_VERSION then .error .wrongVersion else
  let (cnt, fd5) := read fd4 1
  if cnt.length ≠ 1 then .error .invalidFile else
  let no_of_sections := leValue cnt
  if no_of_sections ≠ 2 ∧ (no_of_sections < 6 ∨ no_of_sections > 14) then
    .error .wrongSectNr else
  match readSections no_of_sections fd5 [] with
  | .error r => .error r
  | .ok sections => .ok ⟨version, no_of_sections, sections, header_size, magic.headD 0⟩

/-- The descriptor loop of `readSFHeaderWithoutMessages`. -/
def readSectionsWithoutMessages : Nat → Fd → List SectionHeader → Option (List SectionHeader)
  | 0, _, acc => some acc
  | k + 1, fd, acc =>
    let (name, fd1) := read fd 7
    if name.length ≠ 7 then none else
    let (ty, fd2) := read fd1 2
    if ty.length ≠ 2 then none else
    if ¬ validType (leValue ty) then none else
    let (off, fd3) := read fd2 4
    if off.length ≠ 4 then none else
    let (sz, fd4) := read fd3 4
    if sz.length ≠ 4 then none else
    readSectionsWithoutMessages k fd4
      (acc ++ [⟨name ++ [0], leValue ty, leValue off, leValue sz⟩])

/-- The function `readSFHeaderWithoutMessages`: `none` is the return value 0. -/
def readSFHeaderWithoutMessages (file : File) : Option SFHeader :=
  let fd := openFile file
  if file.length < 3 then none else
  let (magic, fd1) := read (lseekEnd fd (-1)) 1
  if magic.length ≠ 1 then none else
  if magic ≠ [MAGIC_VALUE] then none else
  let (hs, fd2) := read (lseekEnd fd1 (-3)) 2
  if hs.length ≠ 2 then none else
  let header_size := leValue hs
  let fd3 := lseekEnd fd2 (-(header_size : Int))
  let (ver, fd4) := read fd3 4
  if ver.length ≠ 4 then none else
  let version := leValue ver
  if version < MIN_VERSION ∨ version > MAX_VERSION then none else
  let (cnt, fd5) := read fd4 1
  if cnt.length ≠ 1 then none else
  let no_of_sections := leValue cnt
  if no_of_sections ≠ 2 ∧ (no_of_sections < 6 ∨ no_of_sections > 14) then none else
  match readSectionsWithoutMessages no_of_sections fd5 [] with
  | none => none
  | some sections => some ⟨version, no_of_sections, sections, header_size, magic.headD 0⟩

/-! ## Section access and classification -/

/-- The counting loop shared by `countLinesInSection` and `extractLine`: one
step per payload byte, incrementing on a line feed. -/
def countLineFeeds (content : List Byte) : Nat :=
  content.foldl (fun count c => if c = 10 then count + 1 else count) 0

/-- The function `countLinesInSection`; `malloc` answers its one allocation.
The block has `allocSize size` bytes: `read` stores what it delivers at its
start, and the terminator goes to index `size`.  Its callers pass only indices
below `no_of_sections`, whose slots are written; an unwritten slot is outside
the model and yields 0 here. -/
def countLinesInSection (malloc : Malloc) (fd : Fd) (header : SFHeader) (sectionIndex : Nat) :
    Outcome Nat :=
  match header.sections[sectionIndex]? with
  | none => .done 0
  | some sect =>
    let fd1 := lseekSet fd sect.offset
    if ¬ malloc (allocSize sect.size) then .done 0 else
    let (sectionContent, _) := read fd1 sect.size
    if sectionContent.length > allocSize sect.size then .undefined else
    if sectionContent.length ≠ sect.size then .done 0 else
    if ¬ sect.size < allocSize sect.size then .undefined else
    .done (countLineFeeds sectionContent + 1)

/-- The tally loop of `hasRequiredSections`, for indices `i, i+1, ..` with `k`
iterations remaining; `heap i` answers the allocation made for index `i`.
Every call of `countLinesInSection` starts with an absolute seek, so the
position the previous call left behind plays no part. -/
def tallyThirteen (heap : Nat → Malloc) (fd : Fd) (header : SFHeader) :
    Nat → Nat → Nat → Outcome Nat
  | 0, _, tally => .done tally
  | k + 1, i, tally =>
    match countLinesInSection (heap i) fd header i with
    | .undefined => .undefined
    | .done lineCount =>
      tallyThirteen heap fd header k (i + 1) (if lineCount = 13 then tally + 1 else tally)

/-- The function `hasRequiredSections` on an opened file. -/
def hasRequiredSections (heap : Nat → Malloc) (file : File) : Outcome Bool :=
  match readSFHeader file with
  | .error _ => .done false
  | .ok header =>
    match tallyThirteen heap (openFile file) header header.no_of_sections 0 0 with
    | .undefined => .undefined
    | .done sectionsWithThirteenLines => .done (decide (sectionsWithThirteenLines ≥ 2))

/-- The function `hasRequiredSectionsWithoutMessages` on an opened file. -/
def hasRequiredSectionsWithoutMessages (heap : Nat → Malloc) (file : File) : Outcome Bool :=
  match readSFHeaderWithoutMessages file with
  | none => .done false
  | some header =>
    match tallyThirteen heap (openFile file) header header.no_of_sections 0 0 with
    | .undefined => .undefined
    | .done sectionsWithThirteenLines => .done (decide (sectionsWithThirteenLines ≥ 2))

/-! ## Line extraction -/

/-- The sanitising loop of `extractLine`: `p` walks a NUL-terminated string,
`pos` is the number of bytes stored in `cleanLine` so far (`out`). -/
def cleanLoop : List Byte → Nat → List Byte → List Byte
  | [], _, out => out
  | c :: rest, pos, out =>
    if c ≠ 0 ∧ pos < MAX_LINE_LENGTH - 1 then
      if 32 ≤ c.val ∧ c.val ≤ 126 then cleanLoop rest (pos + 1) (out ++ [c])
      else cleanLoop rest pos out
    else out

/-- The scan loop of `extractLine` over the buffer `content` (payload and its
terminator): `i` is the loop index, `start` the index where the current line
begins, and the first argument counts the iterations left before `i` passes
`size`.  `none` means the loop ran to its end. -/
def scanLoop (content : List Byte) (targetLine : Int) : Nat → Nat → Nat → Int → Option (List Byte)
  | 0, _, _, _ => none
  | k + 1, i, start, currentLine =>
    if content.getD i 0 = 10 ∨ content.getD i 0 = 0 then
      if currentLine = targetLine then
        some (cleanLoop ((content.set i 0).drop start) 0 [])
      else scanLoop content targetLine k (i + 1) (i + 1) (currentLine + 1)
    else scanLoop content targetLine k (i + 1) start currentLine

/-- The `totalLines` computation of `extractLine`. -/
def totalLines (payload : List Byte) : Nat :=
  let count := countLineFeeds payload
  if payload.length > 0 ∧ payload.getD (payload.length - 1) 0 ≠ 10 then count + 1 else count

/-- The part of `extractLine` after the payload has been read into `content`. -/
def extractFromPayload (payload : List Byte) (lineNumber : Int) : Except Reason (List Byte) :=
  let content := payload ++ [0]
  let total := totalLines payload
  if lineNumber < 1 ∨ lineNumber > (total : Int) then .error .invalidLine else
  let targetLine : Int := (total : Int) - lineNumber + 1
  match scanLoop content targetLine (payload.length + 1) 0 0 1 with
  | some cleanLine => .ok cleanLine
  | none => .error .invalidLine

/-- The function `extractLine` on an opened file: the text printed after
`SUCCESS`, or the failure reported; `malloc` answers its one allocation.  The
block `content` has `allocSize size` bytes: `read` stores what it delivers at
its start, and the terminator goes to index `size`.  After a successful header
read the slot `sectionNumber - 1` is always written, so the lookup of `sect`
cannot miss. -/
def extractLine (malloc : Malloc) (file : File) (sectionNumber lineNumber : Int) :
    Outcome (Except Reason (List Byte)) :=
  let fd := openFile file
  match readSFHeader file with
  | .error r => .done (.error r)
  | .ok header =>
    if sectionNumber < 1 ∨ sectionNumber > (header.no_of_sections : Int) then
      .done (.error .invalidSection) else
    match header.sections[(sectionNumber - 1).toNat]? with
    | none => .done (.error .invalidSection)
    | some sect =>
      if ¬ malloc (allocSize sect.size) then .done (.error .memoryError) else
      let (payload, _) := read (lseekSet fd sect.offset) sect.size
      if payload.length > allocSize sect.size then .undefined else
      if payload.length ≠ sect.size then .done (.error .invalidSection) else
      if ¬ sect.size < allocSize sect.size then .undefined else
      .done (extractFromPayload payload lineNumber)

/-! ## Reference notions used in the statements -/

/-- The bytes a complete read of `len` bytes at offset `off` would deliver. -/
def bytesAt (file : File) (off len : Nat) : List Byte := (file.drop off).take len

/-- The descriptor stored in the 17 bytes at offset `p`. -/
def descAt (file : File) (p : Nat) : SectionHeader :=
  ⟨bytesAt file p 7 ++ [0], leValue (bytesAt file (p + 7) 2),
    leValue (bytesAt file (p + 9) 4), leValue (bytesAt file (p + 13) 4)⟩

/-- The stored header size: the 16-bit value in the two bytes before the magic byte. -/
def storedHeaderSize (file : File) : Nat := leValue (bytesAt file (file.length - 3) 2)

/-- The position of the descriptor after the seek to the start of the header:
`length - header_size`, or `length - 1` (where the previous read ended) when
that seek is refused. -/
def headerPos (file : File) : Nat :=
  if storedHeaderSize file ≤ file.length then file.length - storedHeaderSize file
  else file.length - 1

/-- The bytes the sanitising step keeps: printable ASCII. -/
def printable (b : Byte) : Bool := decide (32 ≤ b.val ∧ b.val ≤ 126)

/-- Sanitisation as the specification words it: keep the bytes in [32,126], in
order, up to 1023 of them. -/
def sanitize (seg : List Byte) : List Byte := (seg.filter printable).take 1023

/-- Put `seg` in front of the first segment of a list of segments. -/
def prependSeg (seg : List Byte) : List (List Byte) → List (List Byte)
  | [] => [seg]
  | s :: ss => (seg ++ s) :: ss

/-- Split a byte sequence at every byte satisfying `d`; the end of the sequence
closes the last segment.  A sequence with `k` delimiters has `k + 1` segments. -/
def splitWhere (d : Byte → Bool) : List Byte → List (List Byte)
  | [] => [[]]
  | b :: bs => if d b then [] :: splitWhere d bs else prependSeg [b] (splitWhere d bs)

/-- The payload split on line-feed bytes only. -/
def linesOf (payload : List Byte) : List (List Byte) := splitWhere (fun b => b == 10) payload

/-- The delimiters of the scan loop in `extractLine`: line feed and NUL. -/
def scanDelimiter (b : Byte) : Bool := b == 10 || b == 0

/-- The line total as the specification words it: the number of line feeds,
plus one when the payload is non-empty and does not end in a line feed. -/
def specTotalLines (payload : List Byte) : Nat :=
  payload.count 10 + (if payload ≠ [] ∧ payload.getLast? ≠ some 10 then 1 else 0)

/-- The scan loop of `extractLine` told over lists: `rest` is the buffer from
index `i` on, `seg` the bytes between `start` and `i`. -/
def scanList (targetLine : Int) : List Byte → List Byte → Int → Option (List Byte)
  | [], _, _ => none
  | c :: rest, seg, currentLine =>
    if c = 10 ∨ c = 0 then
      if currentLine = targetLine then some (cleanLoop (seg ++ 0 :: rest) 0 [])
      else scanList targetLine rest [] (currentLine + 1)
    else scanList targetLine rest (seg ++ [c]) currentLine

/-- The payload a descriptor designates: `size` bytes at `offset`, as far as
the file reaches. -/
def payloadOf (file : File) (sect : SectionHeader) : List Byte :=
  bytesAt file sect.offset sect.size

/-! ## Sample inputs -/

/-- The two-section file of the round-trip scenario: payloads `"a\nb\nc"` and
`"x\ny\n"`, then version 100, two descriptors `sect_01` (type 80, offset 0,
size 5) and `sect_02` (type 43, offset 5, size 4), header size 42 and `z`. -/
def sampleFile : File :=
  [97, 10, 98, 10, 99,
   120, 10, 121, 10,
   100, 0, 0, 0,
   2,
   115, 101, 99, 116, 95, 48, 49, 80, 0, 0, 0, 0, 0, 5, 0, 0, 0,
   115, 101, 99, 116, 95, 48, 50, 43, 0, 5, 0, 0, 0, 4, 0, 0, 0,
   42, 0, 122]

/-- The header `readSFHeader` decodes from `sampleFile`. -/
def sampleHeader : SFHeader :=
  ⟨100, 2,
    [⟨[115, 101, 99, 116, 95, 48, 49, 0], 80, 0, 5⟩,
     ⟨[115, 101, 99, 116, 95, 48, 50, 0], 43, 5, 4⟩],
    42, 122⟩

/-- A file of length 8 whose last byte is `y`, not the sentinel. -/
def wrongMagicFile : File := [100, 0, 0, 0, 2, 8, 0, 121]

/-- A file of length 8 with the sentinel, header size 8 and version 83. -/
def lowVersionFile : File := [83, 0, 0, 0, 2, 8, 0, 122]

/-- The first descriptor of `sampleFile`. -/
def sampleSection1 : SectionHeader := ⟨[115, 101, 99, 116, 95, 48, 49, 0], 80, 0, 5⟩

/-- The second descriptor of `sampleFile`. -/
def sampleSection2 : SectionHeader := ⟨[115, 101, 99, 116, 95, 48, 50, 0], 43, 5, 4⟩

/-- The sample file with the first payload changed to `"a\0b\nc"`: a NUL byte
inside the first line.  Its header is `sampleHeader` again. -/
def nulFile : File :=
  [97, 0, 98, 10, 99,
   120, 10, 121, 10,
   100, 0, 0, 0,
   2,
   115, 101, 99, 116, 95, 48, 49, 80, 0, 0, 0, 0, 0, 5, 0, 0, 0,
   115, 101, 99, 116, 95, 48, 50, 43, 0, 5, 0, 0, 0, 4, 0, 0, 0,
   42, 0, 122]

/-- A payload of 13 lines `l` separated by 12 line feeds (25 bytes). -/
def thirteenLines : List Byte :=
  [108, 10, 108, 10, 108, 10, 108, 10, 108, 10, 108, 10, 108, 10, 108, 10, 108, 10, 108, 10,
   108, 10, 108, 10, 108]

/-- A valid two-section file whose two payloads (offsets 0 and 25, 25 bytes
each) both hold 13 newline-separated lines. -/
def thirteenFile : File :=
  thirteenLines ++ thirteenLines ++
  [100, 0, 0, 0,
   2,
   115, 101, 99, 116, 95, 48, 49, 80, 0, 0, 0, 0, 0, 25, 0, 0, 0,
   115, 101, 99, 116, 95, 48, 50, 43, 0, 25, 0, 0, 0, 25, 0, 0, 0,
   42, 0, 122]

/-- The number of section indices below `no_of_sections` whose line count, as
`countLinesInSection` reports it, is 13. -/
def thirteenCount (heap : Nat → Malloc) (file : File) (hdr : SFHeader) : Nat :=
  ((List.range hdr.no_of_sections).filter
    (fun i => decide (countLinesInSection (heap i) (openFile file) hdr i = .done 13))).length

/-! ## Further sample inputs -/

/-- A file of length 8 with the sentinel, header size 8, version 100 and a
section count of 3. -/
def badCountFile : File := [100, 0, 0, 0, 3, 8, 0, 122]

/-- A file of length 17 with the sentinel, header size 17, version 100 and
section count 2, whose first descriptor has the name `sect_01` and type 99; the
3 bytes after the type are the trailer, so the offset field is cut short. -/
def badTypeFile : File :=
  [100, 0, 0, 0, 2, 115, 101, 99, 116, 95, 48, 49, 99, 0, 17, 0, 122]

/-- A file of length 8 with the sentinel and a stored header size of 65535. -/
def hugeHeaderSizeFile : File := [100, 0, 0, 0, 2, 255, 255, 122]

/-- A file of length 39 with header size 39: the header starts at offset 0 and
its two descriptors run to the end of the file, the size field of the second
one ending in the three trailer bytes. -/
def overlapFile : File :=
  [100, 0, 0, 0,
   2,
   115, 101, 99, 116, 95, 48, 49, 80, 0, 0, 0, 0, 0, 0, 0, 0, 0,
   115, 101, 99, 116, 95, 48, 50, 43, 0, 0, 0, 0, 0, 0, 39, 0, 122]

/-- The sample file with descriptor sizes 5 and 4 kept and the second
descriptor moved to offset 200, beyond the end of the file. -/
def shortPayloadFile : File :=
  [97, 10, 98, 10, 99,
   120, 10, 121, 10,
   100, 0, 0, 0,
   2,
   115, 101, 99, 116, 95, 48, 49, 80, 0, 0, 0, 0, 0, 5, 0, 0, 0,
   115, 101, 99, 116, 95, 48, 50, 43, 0, 200, 0, 0, 0, 4, 0, 0, 0,
   42, 0, 122]

/-- The header of `shortPayloadFile`. -/
def shortPayloadHeader : SFHeader :=
  ⟨100, 2,
    [⟨[115, 101, 99, 116, 95, 48, 49, 0], 80, 0, 5⟩,
     ⟨[115, 101, 99, 116, 95, 48, 50, 0], 43, 200, 4⟩],
    42, 122⟩

/-- The second descriptor of `shortPayloadFile`: 4 bytes at offset 200. -/
def shortSection : SectionHeader := ⟨[115, 101, 99, 116, 95, 48, 50, 0], 43, 200, 4⟩

/-- A six-section file: sections 1 and 2 are the two 13-line payloads at
offsets 0 and 25, sections 3 to 6 ask for 25 bytes at offset 200, beyond the end
of the file. -/
def mixedFile : File :=
  thirteenLines ++ thirteenLines ++
  [100, 0, 0, 0,
   6,
   115, 101, 99, 116, 95, 48, 49, 80, 0, 0, 0, 0, 0, 25, 0, 0, 0,
   115, 101, 99, 116, 95, 48, 50, 43, 0, 25, 0, 0, 0, 25, 0, 0, 0,
   115, 101, 99, 116, 95, 48, 51, 38, 0, 200, 0, 0, 0, 25, 0, 0, 0,
   115, 101, 99, 116, 95, 48, 52, 23, 0, 200, 0, 0, 0, 25, 0, 0, 0,
   115, 101, 99, 116, 95, 48, 53, 81, 0, 200, 0, 0, 0, 25, 0, 0, 0,
   115, 101, 99, 116, 95, 48, 54, 80, 0, 200, 0, 0, 0, 25, 0, 0, 0,
   110, 0, 122]

/-- The header of `mixedFile`. -/
def mixedHeader : SFHeader :=
  ⟨100, 6,
    [⟨[115, 101, 99, 116, 95, 48, 49, 0], 80, 0, 25⟩,
     ⟨[115, 101, 99, 116, 95, 48, 50, 0], 43, 25, 25⟩,
     ⟨[115, 101, 99, 116, 95, 48, 51, 0], 38, 200, 25⟩,
     ⟨[115, 101, 99, 116, 95, 48, 52, 0], 23, 200, 25⟩,
     ⟨[115, 101, 99, 116, 95, 48, 53, 0], 81, 200, 25⟩,
     ⟨[115, 101, 99, 116, 95, 48, 54, 0], 80, 200, 25⟩],
    110, 122⟩

/-- The third descriptor of `mixedFile`: 25 bytes at offset 200. -/
def mixedSection3 : SectionHeader := ⟨[115, 101, 99, 116, 95, 48, 51, 0], 38, 200, 25⟩

/-- The header `readSFHeader` decodes from `overlapFile`; the size of its second
descriptor is the value of the bytes `0, 39, 0, 122`. -/
def overlapHeader : SFHeader :=
  ⟨100, 2,
    [⟨[115, 101, 99, 116, 95, 48, 49, 0], 80, 0, 0⟩,
     ⟨[115, 101, 99, 116, 95, 48, 50, 0], 43, 0, 2046830336⟩],
    39, 122⟩

/-! ## Sample input with unused bytes before the trailer -/

/-- A file of length 43 with header size 43: the header starts at offset 0, its
two descriptors end at offset 39, and one unused byte separates them from the
trailer. -/
def gapFile : File :=
  [100, 0, 0, 0,
   2,
   115, 101, 99, 116, 95, 48, 49, 80, 0, 0, 0, 0, 0, 0, 0, 0, 0,
   115, 101, 99, 116, 95, 48, 50, 43, 0, 0, 0, 0, 0, 0, 0, 0, 0,
   255,
   43, 0, 122]

/-- The header `readSFHeader` decodes from `gapFile`. -/
def gapHeader : SFHeader :=
  ⟨100, 2,
    [⟨[115, 101, 99, 116, 95, 48, 49, 0], 80, 0, 0⟩,
     ⟨[115, 101, 99, 116, 95, 48, 50, 0], 43, 0, 0⟩],
    43, 122⟩

/-! ## Sample allocators and oversized descriptors -/

/-- An environment in which this `malloc` call returns a block whatever the
requested size, 0 included. -/
def grantAll : Malloc := fun _ => true

/-- An environment in which this `malloc` call returns a block for requests of
at most `limit` bytes and `NULL` for larger ones. -/
def grantUpTo (limit : Nat) : Malloc := fun n => decide (n ≤ limit)

/-- A file of length 42 made of a header only: version 100, two descriptors,
the first with offset 0 and size 0xFFFFFFFF, the second with offset 0 and size
0, then header size 42 and `z`. -/
def wrapFile : File :=
  [100, 0, 0, 0,
   2,
   115, 101, 99, 116, 95, 48, 49, 80, 0, 0, 0, 0, 0, 255, 255, 255, 255,
   115, 101, 99, 116, 95, 48, 50, 43, 0, 0, 0, 0, 0, 0, 0, 0, 0,
   42, 0, 122]

/-- The header of `wrapFile`. -/
def wrapHeader : SFHeader :=
  ⟨100, 2,
    [⟨[115, 101, 99, 116, 95, 48, 49, 0], 80, 0, 4294967295⟩,
     ⟨[115, 101, 99, 116, 95, 48, 50, 0], 43, 0, 0⟩],
    42, 122⟩

/-- The first descriptor of `wrapFile`: 0xFFFFFFFF bytes at offset 0. -/
def wrapSection : SectionHeader := ⟨[115, 101, 99, 116, 95, 48, 49, 0], 80, 0, 4294967295⟩

/-- The file `wrapFile` with the size of the first descriptor changed to
0xF0000000. -/
def oversizeFile : File :=
  [100, 0, 0, 0,
   2,
   115, 101, 99, 116, 95, 48, 49, 80, 0, 0, 0, 0, 0, 0, 0, 0, 240,
   115, 101, 99, 116, 95, 48, 50, 43, 0, 0, 0, 0, 0, 0, 0, 0, 0,
   42, 0, 122]

/-- The header of `oversizeFile`. -/
def oversizeHeader : SFHeader :=
  ⟨100, 2,
    [⟨[115, 101, 99, 116, 95, 48, 49, 0], 80, 0, 4026531840⟩,
     ⟨[115, 101, 99, 116, 95, 48, 50, 0], 43, 0, 0⟩],
    42, 122⟩

/-- The first descriptor of `oversizeFile`: 0xF0000000 bytes at offset 0. -/
def oversizeSection : SectionHeader := ⟨[115, 101, 99, 116, 95, 48, 49, 0], 80, 0, 4026531840⟩

/-- The file `mixedFile` with its third descriptor changed to offset 0 and size
0xFFFFFFFF: sections 1 and 2 hold 13 lines each, section 3 asks for more bytes
than the file has, starting inside the file. -/
def wrapMixedFile : File :=
  thirteenLines ++ thirteenLines ++
  [100, 0, 0, 0,
   6,
   115, 101, 99, 116, 95, 48, 49, 80, 0, 0, 0, 0, 0, 25, 0, 0, 0,
   115, 101, 99, 116, 95, 48, 50, 43, 0, 25, 0, 0, 0, 25, 0, 0, 0,
   115, 101, 99, 116, 95, 48, 51, 38, 0, 0, 0, 0, 0, 255, 255, 255, 255,
   115, 101, 99, 116, 95, 48, 52, 23, 0, 200, 0, 0, 0, 25, 0, 0, 0,
   115, 101, 99, 116, 95, 48, 53, 81, 0, 200, 0, 0, 0, 25, 0, 0, 0,
   115, 101, 99, 116, 95, 48, 54, 80, 0, 200, 0, 0, 0, 25, 0, 0, 0,
   110, 0, 122]

/-- The header of `wrapMixedFile`. -/
def wrapMixedHeader : SFHeader :=
  ⟨100, 6,
    [⟨[115, 101, 99, 116, 95, 48, 49, 0], 80, 0, 25⟩,
     ⟨[115, 101, 99, 116, 95, 48, 50, 0], 43, 25, 25⟩,
     ⟨[115, 101, 99, 116, 95, 48, 51, 0], 38, 0, 4294967295⟩,
     ⟨[115, 101, 99, 116, 95, 48, 52, 0], 23, 200, 25⟩,
     ⟨[115, 101, 99, 116, 95, 48, 53, 0], 81, 200, 25⟩,
     ⟨[115, 101, 99, 116, 95, 48, 54, 0], 80, 200, 25⟩],
    110, 122⟩

/-- The third descriptor of `wrapMixedFile`: 0xFFFFFFFF bytes at offset 0. -/
def wrapMixedSection3 : SectionHeader :=
  ⟨[115, 101, 99, 116, 95, 48, 51, 0], 38, 0, 4294967295⟩

/-! ## Reading primitives -/

theorem bytesAt_length (file : File) (off len : Nat) :
    (bytesAt file off len).length = min len (file.length - off) := by
  simp [bytesAt]

theorem read_fst (file : File) (pos n : Nat) : (read ⟨file, pos⟩ n).1 = bytesAt file pos n := rfl

theorem read_snd (file : File) (pos n : Nat) :
    (read ⟨file, pos⟩ n).2 = ⟨file, pos + min n (file.length - pos)⟩ := by
  simp [read]

theorem readSections_succ (file : File) (pos k : Nat) (acc : List SectionHeader) :
    readSections (k + 1) ⟨file, pos⟩ acc =
      if file.length < pos + 9 then .error .invalidFile
      else if ¬ validType (descAt file pos).type then .error .wrongSectTypes
      else if file.length < pos + 17 then .error .invalidFile
      else readSections k ⟨file, pos + 17⟩ (acc ++ [descAt file pos]) := by
  have e1 : ∀ p n, ((List.drop p file).take n).length = min n (file.length - p) := by
    intro p n; simp
  rw [readSections]
  simp only [read, e1, descAt, bytesAt]
  by_cases h7 : file.length < pos + 7
  · rw [if_pos (by omega), if_pos (by omega)]
  have a7 : 7 ⊓ (file.length - pos) = 7 := by omega
  simp only [a7, ne_eq, not_true_eq_false, if_false]
  by_cases h9 : file.length < pos + 9
  · rw [if_pos (by omega), if_pos (by omega)]
  have a9 : 2 ⊓ (file.length - (pos + 7)) = 2 := by omega
  simp only [a9, not_true_eq_false, if_false, if_neg h9]
  by_cases hv : validType (leValue (List.take 2 (List.drop (pos + 7) file))) = true
  swap
  · rw [if_pos hv, if_pos hv]
  simp only [hv, not_true_eq_false, if_false]
  by_cases h13 : file.length < pos + 13
  · rw [if_pos (by omega), if_pos (by omega)]
  have a13 : 4 ⊓ (file.length - (pos + 7 + 2)) = 4 := by omega
  simp only [a13, not_true_eq_false, if_false]
  by_cases h17 : file.length < pos + 17
  · rw [if_pos (by omega), if_pos (by omega)]
  have a17 : 4 ⊓ (file.length - (pos + 7 + 2 + 4)) = 4 := by omega
  simp only [a17, not_true_eq_false, if_false, if_neg h17]

theorem readSectionsWithoutMessages_succ (file : File) (pos k : Nat) (acc : List SectionHeader) :
    readSectionsWithoutMessages (k + 1) ⟨file, pos⟩ acc =
      if file.length < pos + 9 then none
      else if ¬ validType (descAt file pos).type then none
      else if file.length < pos + 17 then none
      else readSectionsWithoutMessages k ⟨file, pos + 17⟩ (acc ++ [descAt file pos]) := by
  have e1 : ∀ p n, ((List.drop p file).take n).length = min n (file.length - p) := by
    intro p n; simp
  rw [readSectionsWithoutMessages]
  simp only [read, e1, descAt, bytesAt]
  by_cases h7 : file.length < pos + 7
  · rw [if_pos (by omega), if_pos (by omega)]
  have a7 : 7 ⊓ (file.length - pos) = 7 := by omega
  simp only [a7, ne_eq, not_true_eq_false, if_false]
  by_cases h9 : file.length < pos + 9
  · rw [if_pos (by omega), if_pos (by omega)]
  have a9 : 2 ⊓ (file.length - (pos + 7)) = 2 := by omega
  simp only [a9, not_true_eq_false, if_false, if_neg h9]
  by_cases hv : validType (leValue (List.take 2 (List.drop (pos + 7) file))) = true
  swap
  · rw [if_pos hv, if_pos hv]
  simp only [hv, not_true_eq_false, if_false]
  by_cases h13 : file.length < pos + 13
  · rw [if_pos (by omega), if_pos (by omega)]
  have a13 : 4 ⊓ (file.length - (pos + 7 + 2)) = 4 := by omega
  simp only [a13, not_true_eq_false, if_false]
  by_cases h17 : file.length < pos + 17
  · rw [if_pos (by omega), if_pos (by omega)]
  have a17 : 4 ⊓ (file.length - (pos + 7 + 2 + 4)) = 4 := by omega
  simp only [a17, not_true_eq_false, if_false, if_neg h17]

theorem lseekEnd_neg (file : File) (p k : Nat) :
    lseekEnd ⟨file, p⟩ (-(k : Int)) = ⟨file, if k ≤ file.length then file.length - k else p⟩ := by
  unfold lseekEnd
  by_cases hk : k ≤ file.length
  · simp only [if_pos hk]
    rw [if_neg (by omega)]
    congr 1
    omega
  · simp only [if_neg hk]
    rw [if_pos (by omega)]

theorem readSFHeader_eq (file : File) (h3 : 3 ≤ file.length) :
    readSFHeader file =
      if bytesAt file (file.length - 1) 1 ≠ [MAGIC_VALUE] then .error .wrongMagic
      else if file.length < headerPos file + 4 then .error .invalidFile
      else if leValue (bytesAt file (headerPos file) 4) < MIN_VERSION
          ∨ leValue (bytesAt file (headerPos file) 4) > MAX_VERSION then .error .wrongVersion
      else if file.length < headerPos file + 5 then .error .invalidFile
      else if leValue (bytesAt file (headerPos file + 4) 1) ≠ 2
          ∧ (leValue (bytesAt file (headerPos file + 4) 1) < 6
            ∨ leValue (bytesAt file (headerPos file + 4) 1) > 14) then .error .wrongSectNr
      else match readSections (leValue (bytesAt file (headerPos file + 4) 1))
          ⟨file, headerPos file + 5⟩ [] with
        | .error r => .error r
        | .ok sections => .ok ⟨leValue (bytesAt file (headerPos file) 4),
            leValue (bytesAt file (headerPos file + 4) 1), sections, storedHeaderSize file,
            (bytesAt file (file.length - 1) 1).headD 0⟩ := by
  have e1 : ∀ p n, ((List.drop p file).take n).length = min n (file.length - p) := by
    intro p n; simp
  have l1 : lseekEnd (openFile file) (-1) = ⟨file, file.length - 1⟩ := by
    have := lseekEnd_neg file 0 1
    rw [if_pos (by omega)] at this
    exact this
  have l3 : ∀ p, lseekEnd ⟨file, p⟩ (-3) = ⟨file, file.length - 3⟩ := by
    intro p
    have := lseekEnd_neg file p 3
    rw [if_pos h3] at this
    exact this
  have rd : ∀ p n, read ⟨file, p⟩ n = (bytesAt file p n, ⟨file, p + min n (file.length - p)⟩) := by
    intro p n; simp [read, bytesAt]
  unfold readSFHeader
  rw [if_neg (by omega), l1, rd]
  dsimp only
  simp only [l3, rd, lseekEnd_neg, bytesAt_length]
  have b1 : 1 ⊓ (file.length - (file.length - 1)) = 1 := by omega
  have b2 : 2 ⊓ (file.length - (file.length - 3)) = 2 := by omega
  have b3 : file.length - 3 + 2 = file.length - 1 := by omega
  simp only [b1, b2, b3, ne_eq, not_true_eq_false, if_false]
  have hs : leValue (bytesAt file (file.length - 3) 2) = storedHeaderSize file := rfl
  have hp : (if storedHeaderSize file ≤ file.length then
      file.length - storedHeaderSize file else file.length - 1) = headerPos file := rfl
  simp only [hs]
  simp only [hp]
  generalize headerPos file = q
  by_cases hm : bytesAt file (file.length - 1) 1 = [MAGIC_VALUE]
  swap
  · rw [if_pos hm, if_pos hm]
  simp only [hm, not_true_eq_false, if_false]
  by_cases h4 : file.length < q + 4
  · rw [if_pos (by omega), if_pos h4]
  have a4 : 4 ⊓ (file.length - q) = 4 := by omega
  simp only [a4, not_true_eq_false, if_false, if_neg h4]
  by_cases hv : leValue (bytesAt file q 4) < MIN_VERSION ∨ leValue (bytesAt file q 4) > MAX_VERSION
  · rw [if_pos hv, if_pos hv]
  simp only [if_neg hv]
  by_cases h5 : file.length < q + 5
  · rw [if_pos (by omega), if_pos h5]
  have a5 : 1 ⊓ (file.length - (q + 4)) = 1 := by omega
  simp only [a5, not_true_eq_false, if_false, if_neg h5]


theorem readSFHeaderWithoutMessages_eq (file : File) (h3 : 3 ≤ file.length) :
    readSFHeaderWithoutMessages file =
      if bytesAt file (file.length - 1) 1 ≠ [MAGIC_VALUE] then none
      else if file.length < headerPos file + 4 then none
      else if leValue (bytesAt file (headerPos file) 4) < MIN_VERSION
          ∨ leValue (bytesAt file (headerPos file) 4) > MAX_VERSION then none
      else if file.length < headerPos file + 5 then none
      else if leValue (bytesAt file (headerPos file + 4) 1) ≠ 2
          ∧ (leValue (bytesAt file (headerPos file + 4) 1) < 6
            ∨ leValue (bytesAt file (headerPos file + 4) 1) > 14) then none
      else match readSectionsWithoutMessages (leValue (bytesAt file (headerPos file + 4) 1))
          ⟨file, headerPos file + 5⟩ [] with
        | none => none
        | some sections => some ⟨leValue (bytesAt file (headerPos file) 4),
            leValue (bytesAt file (headerPos file + 4) 1), sections, storedHeaderSize file,
            (bytesAt file (file.length - 1) 1).headD 0⟩ := by
  have l1 : lseekEnd (openFile file) (-1) = ⟨file, file.length - 1⟩ := by
    have := lseekEnd_neg file 0 1
    rw [if_pos (by omega)] at this
    exact this
  have l3 : ∀ p, lseekEnd ⟨file, p⟩ (-3) = ⟨file, file.length - 3⟩ := by
    intro p
    have := lseekEnd_neg file p 3
    rw [if_pos h3] at this
    exact this
  have rd : ∀ p n, read ⟨file, p⟩ n = (bytesAt file p n, ⟨file, p + min n (file.length - p)⟩) := by
    intro p n; simp [read, bytesAt]
  unfold readSFHeaderWithoutMessages
  rw [if_neg (by omega), l1, rd]
  dsimp only
  simp only [l3, rd, lseekEnd_neg, bytesAt_length]
  have b1 : 1 ⊓ (file.length - (file.length - 1)) = 1 := by omega
  have b2 : 2 ⊓ (file.length - (file.length - 3)) = 2 := by omega
  have b3 : file.length - 3 + 2 = file.length - 1 := by omega
  simp only [b1, b2, b3, ne_eq, not_true_eq_false, if_false]
  have hs : leValue (bytesAt file (file.length - 3) 2) = storedHeaderSize file := rfl
  have hp : (if storedHeaderSize file ≤ file.length then
      file.length - storedHeaderSize file else file.length - 1) = headerPos file := rfl
  simp only [hs]
  simp only [hp]
  generalize headerPos file = q
  by_cases hm : bytesAt file (file.length - 1) 1 = [MAGIC_VALUE]
  swap
  · rw [if_pos hm, if_pos hm]
  simp only [hm, not_true_eq_false, if_false]
  by_cases h4 : file.length < q + 4
  · rw [if_pos (by omega), if_pos h4]
  have a4 : 4 ⊓ (file.length - q) = 4 := by omega
  simp only [a4, not_true_eq_false, if_false, if_neg h4]
  by_cases hv : leValue (bytesAt file q 4) < MIN_VERSION ∨ leValue (bytesAt file q 4) > MAX_VERSION
  · rw [if_pos hv, if_pos hv]
  simp only [if_neg hv]
  by_cases h5 : file.length < q + 5
  · rw [if_pos (by omega), if_pos h5]
  have a5 : 1 ⊓ (file.length - (q + 4)) = 1 := by omega
  simp only [a5, not_true_eq_false, if_false, if_neg h5]

theorem readSFHeader_short (file : File) (h : file.length < 3) :
    readSFHeader file = .error .invalidFile := by
  unfold readSFHeader
  rw [if_pos h]

theorem readSFHeaderWithoutMessages_short (file : File) (h : file.length < 3) :
    readSFHeaderWithoutMessages file = none := by
  unfold readSFHeaderWithoutMessages
  rw [if_pos h]

theorem readSectionsWithoutMessages_eq (file : File) (k : Nat) :
    ∀ (pos : Nat) (acc : List SectionHeader),
      readSectionsWithoutMessages k ⟨file, pos⟩ acc = (readSections k ⟨file, pos⟩ acc).toOption := by
  induction k with
  | zero => intro pos acc; rfl
  | succ k ih =>
    intro pos acc
    rw [readSections_succ, readSectionsWithoutMessages_succ]
    split_ifs
    · rfl
    · rfl
    · exact ih _ _
    · rfl

theorem readSections_ok (file : File) (k : Nat) :
    ∀ (pos : Nat) (acc secs : List SectionHeader),
      readSections k ⟨file, pos⟩ acc = .ok secs →
        secs = acc ++ (List.range k).map (fun i => descAt file (pos + 17 * i))
        ∧ (∀ i, i < k → validType (descAt file (pos + 17 * i)).type = true)
        ∧ (k = 0 ∨ pos + 17 * k ≤ file.length) := by
  induction k with
  | zero =>
    intro pos acc secs h
    simp only [readSections] at h
    cases h
    simp
  | succ k ih =>
    intro pos acc secs h
    rw [readSections_succ] at h
    split_ifs at h with h9 hv h17
    obtain ⟨e, v, b⟩ := ih _ _ _ h
    refine ⟨?_, ?_, Or.inr ?_⟩
    · rw [e, List.range_succ_eq_map, List.map_cons, List.map_map, List.append_assoc]
      congr 1
      rw [List.singleton_append]
      congr 1
      apply List.map_congr_left
      intro i _
      simp only [Function.comp_apply]
      congr 1
      omega
    · intro i hi
      cases i with
      | zero => simpa using hv
      | succ j =>
        have := v j (by omega)
        rw [show pos + 17 * (j + 1) = pos + 17 + 17 * j by omega]
        exact this
    · rcases b with b | b
      · subst b; omega
      · omega

theorem readSFHeader_ok (file : File) (hdr : SFHeader) (h : readSFHeader file = .ok hdr) :
    3 ≤ file.length ∧ bytesAt file (file.length - 1) 1 = [MAGIC_VALUE]
    ∧ 5 ≤ storedHeaderSize file ∧ storedHeaderSize file ≤ file.length
    ∧ headerPos file = file.length - storedHeaderSize file
    ∧ (MIN_VERSION ≤ leValue (bytesAt file (headerPos file) 4)
        ∧ leValue (bytesAt file (headerPos file) 4) ≤ MAX_VERSION)
    ∧ (leValue (bytesAt file (headerPos file + 4) 1) = 2
        ∨ (6 ≤ leValue (bytesAt file (headerPos file + 4) 1)
          ∧ leValue (bytesAt file (headerPos file + 4) 1) ≤ 14))
    ∧ readSections (leValue (bytesAt file (headerPos file + 4) 1))
        ⟨file, headerPos file + 5⟩ [] = .ok hdr.sections
    ∧ hdr.version = leValue (bytesAt file (headerPos file) 4)
    ∧ hdr.no_of_sections = leValue (bytesAt file (headerPos file + 4) 1)
    ∧ hdr.header_size = storedHeaderSize file
    ∧ hdr.magic = MAGIC_VALUE := by
  have h3 : 3 ≤ file.length := by
    by_contra hc
    rw [readSFHeader_short file (by omega)] at h
    cases h
  rw [readSFHeader_eq file h3] at h
  split_ifs at h with hm h4 hv h5 hn
  have hm2 : bytesAt file (file.length - 1) 1 = [MAGIC_VALUE] := by
    by_contra hc; exact hm hc
  have hpos : storedHeaderSize file ≤ file.length ∧ 5 ≤ storedHeaderSize file := by
    unfold headerPos at h5
    split_ifs at h5 with hle
    · exact ⟨hle, by omega⟩
    · omega
  have hp : headerPos file = file.length - storedHeaderSize file := by
    unfold headerPos
    rw [if_pos hpos.1]
  refine ⟨h3, hm2, hpos.2, hpos.1, hp, by omega, by omega, ?_⟩
  split at h
  · cases h
  · rename_i secs hs
    cases h
    refine ⟨hs, rfl, rfl, rfl, ?_⟩
    simp [hm2]

theorem bytesAt_one (file : File) (p : Nat) : bytesAt file p 1 = (file[p]?).toList := by
  induction file generalizing p with
  | nil => simp [bytesAt]
  | cons b bs ih =>
    cases p with
    | zero => simp [bytesAt]
    | succ q =>
      have := ih q
      simpa [bytesAt] using this

theorem bytesAt_last (file : File) : bytesAt file (file.length - 1) 1 = file.getLast?.toList := by
  rw [bytesAt_one, List.getLast?_eq_getElem?]

theorem validType_iff (t : Nat) : validType t = true ↔ t ∈ [80, 43, 38, 23, 81] := by
  simp [validType, VALID_SECTION_TYPES]

theorem readSections_error (file : File) (k : Nat) :
    ∀ (pos : Nat) (acc : List SectionHeader) (r : Reason),
      readSections k ⟨file, pos⟩ acc = .error r → r = .invalidFile ∨ r = .wrongSectTypes := by
  induction k with
  | zero =>
    intro pos acc r h
    simp only [readSections] at h
    cases h
  | succ k ih =>
    intro pos acc r h
    rw [readSections_succ] at h
    split_ifs at h
    · cases h; exact Or.inl rfl
    · cases h; exact Or.inl rfl
    · exact ih _ _ _ h
    · cases h; exact Or.inr rfl

theorem readSFHeaderWithoutMessages_toOption (file : File) :
    readSFHeaderWithoutMessages file = (readSFHeader file).toOption := by
  by_cases h3 : file.length < 3
  · rw [readSFHeader_short file h3, readSFHeaderWithoutMessages_short file h3]
    rfl
  rw [readSFHeader_eq file (by omega), readSFHeaderWithoutMessages_eq file (by omega),
    readSectionsWithoutMessages_eq]
  split_ifs
  · rfl
  · rfl
  · rfl
  · rfl
  · rfl
  · cases readSections (leValue (bytesAt file (headerPos file + 4) 1))
      ⟨file, headerPos file + 5⟩ [] <;> rfl

theorem toOption_eq_some_iff {ε α : Type} (x : Except ε α) (a : α) :
    x.toOption = some a ↔ x = .ok a := by
  cases x <;> simp [Except.toOption]

/-! ## Counting and sanitising -/

theorem countLineFeeds_eq_count (content : List Byte) : countLineFeeds content = content.count 10 := by
  have gen : ∀ (l : List Byte) (a : Nat),
      l.foldl (fun count c => if c = 10 then count + 1 else count) a = a + l.count 10 := by
    intro l
    induction l with
    | nil => intro a; simp
    | cons b bs ih =>
      intro a
      rw [List.foldl_cons, ih]
      by_cases hb : b = 10
      · subst hb; simp; omega
      · rw [if_neg hb, List.count_cons_of_ne (Ne.symm hb)]
  unfold countLineFeeds
  rw [gen]
  omega

theorem cleanLoop_segment (seg : List Byte) (h0 : ∀ b, b ∈ seg → b ≠ 0) :
    ∀ (rest : List Byte) (pos : Nat) (out : List Byte),
      cleanLoop (seg ++ 0 :: rest) pos out = out ++ (seg.filter printable).take (1023 - pos) := by
  induction seg with
  | nil =>
    intro rest pos out
    simp [cleanLoop]
  | cons c seg ih =>
    intro rest pos out
    have hc : c ≠ 0 := h0 c (List.mem_cons_self _ _)
    have ih2 := ih (fun b hb => h0 b (List.mem_cons_of_mem _ hb)) rest
    rw [List.cons_append, cleanLoop]
    by_cases hp : pos < MAX_LINE_LENGTH - 1
    · rw [if_pos ⟨hc, hp⟩]
      have hp2 : pos < 1023 := hp
      by_cases hpr : 32 ≤ c.val ∧ c.val ≤ 126
      · rw [if_pos hpr, ih2]
        have : printable c = true := by simp [printable, hpr]
        rw [List.filter_cons_of_pos this, show 1023 - pos = (1023 - (pos + 1)) + 1 by omega,
          List.take_succ_cons]
        simp
      · rw [if_neg hpr, ih2]
        have : ¬ printable c = true := by simp [printable]; omega
        rw [List.filter_cons_of_neg this]
    · rw [if_neg (by intro h; exact hp h.2)]
      have hp2 : ¬ pos < 1023 := hp
      rw [show 1023 - pos = 0 by omega]
      simp

theorem sanitize_printable (seg : List Byte) :
    (∀ b, b ∈ sanitize seg → 32 ≤ b.val ∧ b.val ≤ 126) ∧ (sanitize seg).length ≤ 1023 := by
  constructor
  · intro b hb
    have hm := List.mem_of_mem_take hb
    have := (List.mem_filter.1 hm).2
    simpa [printable] using this
  · unfold sanitize
    rw [List.length_take]
    omega

/-! ## The scan loop -/

theorem getD_append_mid (pre rest : List Byte) (c : Byte) :
    (pre ++ c :: rest).getD pre.length 0 = c := by
  induction pre with
  | nil => rfl
  | cons a pre ih => simpa using ih

theorem set_append_mid (pre rest : List Byte) (c x : Byte) :
    (pre ++ c :: rest).set pre.length x = pre ++ x :: rest := by
  induction pre with
  | nil => rfl
  | cons a pre ih => simp [ih]

theorem scanLoop_eq_scanList (t : Int) :
    ∀ (rest pre seg : List Byte) (cl : Int),
      scanLoop (pre ++ seg ++ rest) t rest.length (pre.length + seg.length) pre.length cl
        = scanList t rest seg cl := by
  intro rest
  induction rest with
  | nil => intro pre seg cl; rfl
  | cons c rest ih =>
    intro pre seg cl
    have hget : (pre ++ seg ++ c :: rest).getD (pre.length + seg.length) 0 = c := by
      rw [← List.length_append]
      exact getD_append_mid (pre ++ seg) rest c
    have hset : ((pre ++ seg ++ c :: rest).set (pre.length + seg.length) 0).drop pre.length
        = seg ++ 0 :: rest := by
      rw [← List.length_append, set_append_mid, List.append_assoc, List.drop_left]
    rw [List.length_cons, scanLoop, scanList, hget]
    by_cases hd : c = 10 ∨ c = 0
    · rw [if_pos hd, if_pos hd]
      by_cases ht : cl = t
      · rw [if_pos ht, if_pos ht, hset]
      · rw [if_neg ht, if_neg ht]
        have := ih (pre ++ seg ++ [c]) [] (cl + 1)
        simp only [List.append_nil, List.length_append, List.length_singleton, List.length_nil,
          Nat.add_zero, List.append_assoc, List.singleton_append] at this
        simp only [List.append_assoc]
        exact this
    · rw [if_neg hd, if_neg hd]
      have := ih pre (seg ++ [c]) cl
      simp only [List.length_append, List.length_singleton, List.append_assoc,
        List.singleton_append] at this
      simp only [List.append_assoc]
      rw [← Nat.add_assoc] at this
      exact this

theorem prependSeg_append (a b : List Byte) (l : List (List Byte)) :
    prependSeg (a ++ b) l = prependSeg a (prependSeg b l) := by
  cases l <;> simp [prependSeg]

theorem prependSeg_nil (l : List (List Byte)) (h : l ≠ []) : prependSeg [] l = l := by
  cases l with
  | nil => exact absurd rfl h
  | cons s ss => rfl

theorem splitWhere_ne_nil (d : Byte → Bool) (l : List Byte) : splitWhere d l ≠ [] := by
  cases l with
  | nil => simp [splitWhere]
  | cons b bs =>
    rw [splitWhere]
    split_ifs
    · simp
    · cases splitWhere d bs <;> simp [prependSeg]

theorem prependSeg_length (seg : List Byte) (l : List (List Byte)) (h : l ≠ []) :
    (prependSeg seg l).length = l.length := by
  cases l with
  | nil => exact absurd rfl h
  | cons s ss => rfl

theorem splitWhere_length (d : Byte → Bool) (l : List Byte) :
    (splitWhere d l).length = l.countP d + 1 := by
  induction l with
  | nil => rfl
  | cons b bs ih =>
    rw [splitWhere]
    by_cases hb : d b = true
    · rw [if_pos hb, List.length_cons, ih, List.countP_cons_of_pos _ _ hb]
    · rw [if_neg hb, prependSeg_length _ _ (splitWhere_ne_nil d bs), ih,
        List.countP_cons_of_neg _ _ hb]

theorem splitWhere_free (d : Byte → Bool) (l : List Byte) :
    ∀ seg, seg ∈ splitWhere d l → ∀ b, b ∈ seg → d b = false := by
  induction l with
  | nil =>
    intro seg hs b hb
    simp only [splitWhere, List.mem_singleton] at hs
    subst hs
    cases hb
  | cons c cs ih =>
    intro seg hs b hb
    rw [splitWhere] at hs
    by_cases hc : d c = true
    · rw [if_pos hc] at hs
      rcases List.mem_cons.1 hs with e | e
      · subst e; cases hb
      · exact ih seg e b hb
    · rw [if_neg hc] at hs
      cases hsp : splitWhere d cs with
      | nil => exact absurd hsp (splitWhere_ne_nil d cs)
      | cons s ss =>
        rw [hsp] at hs ih
        simp only [prependSeg, List.singleton_append, List.mem_cons] at hs
        rcases hs with e | e
        · subst e
          rcases List.mem_cons.1 hb with e2 | e2
          · subst e2; simpa using hc
          · exact ih s (List.mem_cons_self _ _) b e2
        · exact ih seg (List.mem_cons_of_mem _ e) b hb

theorem splitWhere_congr (d e : Byte → Bool) (l : List Byte)
    (h : ∀ b, b ∈ l → d b = e b) : splitWhere d l = splitWhere e l := by
  induction l with
  | nil => rfl
  | cons c cs ih =>
    rw [splitWhere, splitWhere, h c (List.mem_cons_self _ _),
      ih (fun b hb => h b (List.mem_cons_of_mem _ hb))]

theorem scanDelimiter_iff (b : Byte) : scanDelimiter b = true ↔ (b = 10 ∨ b = 0) := by
  simp [scanDelimiter]

theorem scanList_eq (t : Int) :
    ∀ (q seg : List Byte) (cl : Int), cl ≤ t → (∀ b, b ∈ seg → scanDelimiter b = false) →
      scanList t (q ++ [0]) seg cl
        = ((prependSeg seg (splitWhere scanDelimiter q))[(t - cl).toNat]?).map sanitize := by
  intro q
  induction q with
  | nil =>
    intro seg cl hle hseg
    have h0 : ∀ b, b ∈ seg → b ≠ 0 := by
      intro b hb hz
      have := hseg b hb
      rw [hz] at this
      exact absurd this (by decide)
    rw [List.nil_append, scanList, if_pos (Or.inr rfl)]
    by_cases ht : cl = t
    · rw [if_pos ht, cleanLoop_segment seg h0]
      subst ht
      simp [splitWhere, prependSeg, sanitize]
    · rw [if_neg ht]
      have : 1 ≤ (t - cl).toNat := by omega
      simp only [scanList, splitWhere, prependSeg]
      rw [List.getElem?_eq_none (by simpa using this)]
      rfl
  | cons c q ih =>
    intro seg cl hle hseg
    have h0 : ∀ b, b ∈ seg → b ≠ 0 := by
      intro b hb hz
      have := hseg b hb
      rw [hz] at this
      exact absurd this (by decide)
    rw [List.cons_append, scanList, splitWhere]
    by_cases hd : c = 10 ∨ c = 0
    · have hd2 : scanDelimiter c = true := (scanDelimiter_iff c).2 hd
      rw [if_pos hd, if_pos hd2]
      by_cases ht : cl = t
      · rw [if_pos ht, cleanLoop_segment seg h0]
        subst ht
        simp [prependSeg, sanitize]
      · rw [if_neg ht, ih [] (cl + 1) (by omega) (by intro b hb; cases hb),
          prependSeg_nil _ (splitWhere_ne_nil _ _)]
        have : (t - cl).toNat = (t - (cl + 1)).toNat + 1 := by omega
        rw [this]
        simp [prependSeg]
    · have hd2 : ¬ scanDelimiter c = true := fun h => hd ((scanDelimiter_iff c).1 h)
      rw [if_neg hd, if_neg hd2, ih (seg ++ [c]) cl hle, prependSeg_append]
      intro b hb
      rcases List.mem_append.1 hb with e | e
      · exact hseg b e
      · rw [List.mem_singleton] at e
        subst e
        simpa using hd2

theorem totalLines_eq_spec (payload : List Byte) : totalLines payload = specTotalLines payload := by
  unfold totalLines specTotalLines
  rw [countLineFeeds_eq_count]
  have hlast : payload.getD (payload.length - 1) 0 = payload.getLast?.getD 0 := by
    rw [List.getLast?_eq_getElem?, List.getD_eq_getElem?_getD]
  by_cases hne : payload = []
  · subst hne; simp
  · have hpos : payload.length > 0 := List.length_pos.2 hne
    obtain ⟨b, hb⟩ : ∃ b, payload.getLast? = some b := by
      rw [List.getLast?_eq_getLast _ hne]; exact ⟨_, rfl⟩
    rw [hlast, hb]
    by_cases h10 : b = 10
    · subst h10; simp
    · have h1 : (some b : Option Byte) ≠ some 10 := by simpa using h10
      rw [if_pos ⟨hpos, by simpa using h10⟩, if_pos ⟨hne, h1⟩]

theorem totalLines_le (payload : List Byte) :
    totalLines payload ≤ payload.countP scanDelimiter + 1 := by
  have h1 : totalLines payload ≤ payload.count 10 + 1 := by
    rw [totalLines_eq_spec]; unfold specTotalLines; split_ifs <;> omega
  have h2 : payload.count 10 ≤ payload.countP scanDelimiter := by
    unfold List.count
    apply List.countP_mono_left
    intro b _ hb
    have : b = 10 := by simpa using hb
    subst this
    rfl
  omega

theorem extractFromPayload_range (payload : List Byte) (lineNumber : Int)
    (h : lineNumber < 1 ∨ lineNumber > (totalLines payload : Int)) :
    extractFromPayload payload lineNumber = .error .invalidLine := by
  unfold extractFromPayload
  simp only
  rw [if_pos h]

theorem extractFromPayload_ok (payload : List Byte) (lineNumber : Int)
    (h1 : 1 ≤ lineNumber) (h2 : lineNumber ≤ (totalLines payload : Int)) :
    ∃ seg, (splitWhere scanDelimiter payload)[(totalLines payload - lineNumber).toNat]? = some seg
      ∧ extractFromPayload payload lineNumber = .ok (sanitize seg) := by
  have hlen := totalLines_le payload
  have hidx : ((totalLines payload : Int) - lineNumber).toNat
      < (splitWhere scanDelimiter payload).length := by
    rw [splitWhere_length]; omega
  refine ⟨(splitWhere scanDelimiter payload)[((totalLines payload : Int) - lineNumber).toNat],
    List.getElem?_eq_getElem hidx, ?_⟩
  unfold extractFromPayload
  simp only
  rw [if_neg (by omega)]
  have hbridge := scanLoop_eq_scanList ((totalLines payload : Int) - lineNumber + 1)
    (payload ++ [0]) [] [] 1
  simp only [List.nil_append, List.length_nil, Nat.add_zero, List.length_append,
    List.length_singleton] at hbridge
  rw [hbridge, scanList_eq _ payload [] 1 (by omega) (by intro b hb; cases hb),
    prependSeg_nil _ (splitWhere_ne_nil _ _)]
  have : ((totalLines payload : Int) - lineNumber + 1 - 1).toNat
      = ((totalLines payload : Int) - lineNumber).toNat := by omega
  rw [this, List.getElem?_eq_getElem hidx]
  rfl

/-! ## Section lookup -/

theorem readSFHeader_sections_length (file : File) (hdr : SFHeader)
    (h : readSFHeader file = .ok hdr) : hdr.sections.length = hdr.no_of_sections := by
  obtain ⟨_, _, _, _, _, _, _, hs, _, hc, _, _⟩ := readSFHeader_ok file hdr h
  obtain ⟨e, _, _⟩ := readSections_ok file _ _ _ _ hs
  rw [e, hc]
  simp

theorem allocSize_of_lt (size : Nat) (h : size + 1 < 2 ^ 32) : allocSize size = size + 1 := by
  unfold allocSize
  exact Nat.mod_eq_of_lt h

theorem payloadOf_length_le (file : File) (sect : SectionHeader) :
    (payloadOf file sect).length ≤ sect.size := by
  unfold payloadOf
  rw [bytesAt_length]
  omega

theorem extractLine_eq (malloc : Malloc) (file : File) (hdr : SFHeader)
    (sectionNumber lineNumber : Int)
    (sect : SectionHeader) (hh : readSFHeader file = .ok hdr)
    (hs1 : 1 ≤ sectionNumber) (hs2 : sectionNumber ≤ (hdr.no_of_sections : Int))
    (hsect : hdr.sections[(sectionNumber - 1).toNat]? = some sect) :
    extractLine malloc file sectionNumber lineNumber =
      if ¬ malloc (allocSize sect.size) then .done (.error .memoryError)
      else if (payloadOf file sect).length > allocSize sect.size then .undefined
      else if (payloadOf file sect).length ≠ sect.size then .done (.error .invalidSection)
      else if ¬ sect.size < allocSize sect.size then .undefined
      else .done (extractFromPayload (payloadOf file sect) lineNumber) := by
  unfold extractLine
  simp only [hh]
  rw [if_neg (by omega)]
  simp only [hsect]
  rfl

theorem extractLine_fit (malloc : Malloc) (file : File) (hdr : SFHeader)
    (sectionNumber lineNumber : Int)
    (sect : SectionHeader) (hh : readSFHeader file = .ok hdr)
    (hs1 : 1 ≤ sectionNumber) (hs2 : sectionNumber ≤ (hdr.no_of_sections : Int))
    (hsect : hdr.sections[(sectionNumber - 1).toNat]? = some sect)
    (hgrant : malloc (allocSize sect.size) = true) (hfit : sect.size + 1 < 2 ^ 32) :
    extractLine malloc file sectionNumber lineNumber =
      if (payloadOf file sect).length ≠ sect.size then .done (.error .invalidSection)
      else .done (extractFromPayload (payloadOf file sect) lineNumber) := by
  have hle := payloadOf_length_le file sect
  have ha := allocSize_of_lt sect.size hfit
  rw [extractLine_eq malloc file hdr sectionNumber lineNumber sect hh hs1 hs2 hsect,
    if_neg (by simp [hgrant]), if_neg (by omega)]
  by_cases hl : (payloadOf file sect).length ≠ sect.size
  · rw [if_pos hl, if_pos hl]
  · rw [if_neg hl, if_neg hl, if_neg (by omega)]

theorem extractFromPayload_inv (payload : List Byte) (lineNumber : Int) (out : List Byte)
    (h : extractFromPayload payload lineNumber = .ok out) : ∃ seg, out = sanitize seg := by
  by_cases hr : lineNumber < 1 ∨ lineNumber > (totalLines payload : Int)
  · rw [extractFromPayload_range payload lineNumber hr] at h
    cases h
  · obtain ⟨seg, _, e⟩ := extractFromPayload_ok payload lineNumber (by omega) (by omega)
    rw [e] at h
    cases h
    exact ⟨seg, rfl⟩

theorem extractLine_inv (malloc : Malloc) (file : File) (sectionNumber lineNumber : Int)
    (out : List Byte)
    (h : extractLine malloc file sectionNumber lineNumber = .done (.ok out)) :
    ∃ payload, extractFromPayload payload lineNumber = .ok out := by
  unfold extractLine at h
  simp only at h
  split at h
  · cases h
  · split_ifs at h
    · cases h
    · split at h
      · cases h
      · split_ifs at h
        all_goals first | exact ⟨_, Outcome.done.inj h⟩ | cases h

/-! ## Classification -/

theorem countLinesInSection_eq (malloc : Malloc) (fd : Fd) (hdr : SFHeader) (i : Nat)
    (sect : SectionHeader) (hs : hdr.sections[i]? = some sect) :
    countLinesInSection malloc fd hdr i =
      if ¬ malloc (allocSize sect.size) then .done 0
      else if (payloadOf fd.file sect).length > allocSize sect.size then .undefined
      else if (payloadOf fd.file sect).length ≠ sect.size then .done 0
      else if ¬ sect.size < allocSize sect.size then .undefined
      else .done ((payloadOf fd.file sect).count 10 + 1) := by
  unfold countLinesInSection
  simp only [hs]
  rw [← countLineFeeds_eq_count]
  rfl

theorem countLinesInSection_fit (malloc : Malloc) (fd : Fd) (hdr : SFHeader) (i : Nat)
    (sect : SectionHeader) (hs : hdr.sections[i]? = some sect)
    (hgrant : malloc (allocSize sect.size) = true) (hfit : sect.size + 1 < 2 ^ 32) :
    countLinesInSection malloc fd hdr i =
      if (payloadOf fd.file sect).length ≠ sect.size then .done 0
      else .done ((payloadOf fd.file sect).count 10 + 1) := by
  have hle := payloadOf_length_le fd.file sect
  have ha := allocSize_of_lt sect.size hfit
  rw [countLinesInSection_eq malloc fd hdr i sect hs, if_neg (by simp [hgrant]),
    if_neg (by omega)]
  by_cases hl : (payloadOf fd.file sect).length ≠ sect.size
  · rw [if_pos hl, if_pos hl]
  · rw [if_neg hl, if_neg hl, if_neg (by omega)]

theorem tallyThirteen_eq (heap : Nat → Malloc) (fd : Fd) (hdr : SFHeader) (k : Nat) :
    ∀ (i tally : Nat),
      (∀ j, i ≤ j → j < i + k → countLinesInSection (heap j) fd hdr j ≠ .undefined) →
      tallyThirteen heap fd hdr k i tally
        = .done (tally + ((List.range' i k).filter
            (fun j => decide (countLinesInSection (heap j) fd hdr j = .done 13))).length) := by
  induction k with
  | zero => intro i tally _; simp [tallyThirteen]
  | succ k ih =>
    intro i tally hdef
    rw [tallyThirteen, List.range'_succ]
    cases hc : countLinesInSection (heap i) fd hdr i with
    | undefined => exact absurd hc (hdef i (Nat.le_refl _) (by omega))
    | done lineCount =>
      simp only
      rw [ih (i + 1) _ (fun j h1 h2 => hdef j (by omega) (by omega))]
      by_cases h : lineCount = 13
      · subst h
        rw [if_pos rfl, List.filter_cons_of_pos (by simp [hc]), List.length_cons]
        congr 1
        omega
      · rw [if_neg h, List.filter_cons_of_neg (by simp [hc, h])]

theorem tallyThirteen_undefined (heap : Nat → Malloc) (fd : Fd) (hdr : SFHeader) (k : Nat) :
    ∀ (i tally j : Nat), i ≤ j → j < i + k →
      countLinesInSection (heap j) fd hdr j = .undefined →
      tallyThirteen heap fd hdr k i tally = .undefined := by
  induction k with
  | zero => intro i tally j h1 h2 _; omega
  | succ k ih =>
    intro i tally j h1 h2 hu
    rw [tallyThirteen]
    cases hc : countLinesInSection (heap i) fd hdr i with
    | undefined => rfl
    | done lineCount =>
      simp only
      have hne : i ≠ j := by
        intro e
        rw [e, hu] at hc
        cases hc
      exact ih (i + 1) _ j (by omega) (by omega) hu

theorem hasRequiredSections_ok (heap : Nat → Malloc) (file : File) (hdr : SFHeader)
    (h : readSFHeader file = .ok hdr)
    (hdef : ∀ j, j < hdr.no_of_sections →
      countLinesInSection (heap j) (openFile file) hdr j ≠ .undefined) :
    hasRequiredSections heap file = .done (decide (2 ≤ thirteenCount heap file hdr)) := by
  unfold hasRequiredSections thirteenCount
  simp only [h]
  rw [tallyThirteen_eq heap _ hdr _ 0 0 (fun j _ h2 => hdef j (by omega)),
    List.range_eq_range', Nat.zero_add]

theorem hasRequiredSections_error (heap : Nat → Malloc) (file : File) (r : Reason)
    (h : readSFHeader file = .error r) : hasRequiredSections heap file = .done false := by
  unfold hasRequiredSections
  simp only [h]

theorem hasRequiredSectionsWithoutMessages_eq (heap : Nat → Malloc) (file : File) :
    hasRequiredSectionsWithoutMessages heap file = hasRequiredSections heap file := by
  unfold hasRequiredSectionsWithoutMessages hasRequiredSections
  rw [readSFHeaderWithoutMessages_toOption]
  cases readSFHeader file <;> rfl

theorem headerPos_of_le (file : File) (hle : storedHeaderSize file ≤ file.length) :
    headerPos file = file.length - storedHeaderSize file := by
  unfold headerPos
  rw [if_pos hle]

theorem headerPos_of_gt (file : File) (hgt : file.length < storedHeaderSize file) :
    headerPos file = file.length - 1 := by
  unfold headerPos
  rw [if_neg (by omega)]

theorem bytesAt_last_of_getLast (file : File) (hz : file.getLast? = some MAGIC_VALUE) :
    bytesAt file (file.length - 1) 1 = [MAGIC_VALUE] := by
  rw [bytesAt_last, hz]
  rfl

theorem readSections_wrongType (file : File) (i : Nat) :
    ∀ (k pos : Nat) (acc : List SectionHeader), i < k →
      (∀ j, j < i → validType (descAt file (pos + 17 * j)).type = true) →
      validType (descAt file (pos + 17 * i)).type = false →
      pos + 17 * i + 9 ≤ file.length →
      readSections k ⟨file, pos⟩ acc = .error .wrongSectTypes := by
  induction i with
  | zero =>
    intro k pos acc hk _ hbad hlen
    obtain ⟨k, rfl⟩ : ∃ m, k = m + 1 := ⟨k - 1, by omega⟩
    rw [readSections_succ, if_neg (by omega)]
    rw [Nat.mul_zero, Nat.add_zero] at hbad
    rw [if_pos (by simp [hbad])]
  | succ i ih =>
    intro k pos acc hk hgood hbad hlen
    obtain ⟨k, rfl⟩ : ∃ m, k = m + 1 := ⟨k - 1, by omega⟩
    have h0 := hgood 0 (by omega)
    rw [Nat.mul_zero, Nat.add_zero] at h0
    rw [readSections_succ, if_neg (by omega), if_neg (by simp [h0]), if_neg (by omega)]
    apply ih k (pos + 17) _ (by omega)
    · intro j hj
      have := hgood (j + 1) (by omega)
      rw [show pos + 17 * (j + 1) = pos + 17 + 17 * j by omega] at this
      exact this
    · rw [show pos + 17 * (i + 1) = pos + 17 + 17 * i by omega] at hbad
      exact hbad
    · omega

/-! ## Further lemmas on the scan -/

theorem scanLoop_payload (payload : List Byte) (t : Int) (ht : 1 ≤ t) :
    scanLoop (payload ++ [0]) t (payload.length + 1) 0 0 1
      = ((splitWhere scanDelimiter payload)[(t - 1).toNat]?).map sanitize := by
  have hbridge := scanLoop_eq_scanList t (payload ++ [0]) [] [] 1
  simp only [List.nil_append, List.length_nil, Nat.add_zero, List.length_append,
    List.length_singleton] at hbridge
  rw [hbridge, scanList_eq _ payload [] 1 ht (by intro b hb; cases hb),
    prependSeg_nil _ (splitWhere_ne_nil _ _)]

theorem two_le_length_of_mem {l : List Nat} {i j : Nat} (hi : i ∈ l) (hj : j ∈ l)
    (hne : i ≠ j) : 2 ≤ l.length := by
  cases l with
  | nil => cases hi
  | cons a l =>
    cases l with
    | nil =>
      rw [List.mem_singleton] at hi hj
      exact absurd (hi.trans hj.symm) hne
    | cons b l => simp

theorem payload_short_iff (file : File) (sect : SectionHeader) :
    (payloadOf file sect).length ≠ sect.size ↔
      ∃ k, sect.offset ≤ k ∧ k < sect.offset + sect.size ∧ file.length ≤ k := by
  unfold payloadOf
  rw [bytesAt_length]
  constructor
  · intro h
    by_cases hl : file.length ≤ sect.offset
    · exact ⟨sect.offset, Nat.le_refl _, by omega, hl⟩
    · exact ⟨file.length, by omega, by omega, Nat.le_refl _⟩
  · rintro ⟨k, h1, h2, h3⟩
    omega

/-! ## Completeness of the descriptor loop -/

theorem readSections_complete (file : File) (k : Nat) :
    ∀ (pos : Nat) (acc : List SectionHeader),
      pos + 17 * k ≤ file.length →
      (∀ i, i < k → validType (descAt file (pos + 17 * i)).type = true) →
      readSections k ⟨file, pos⟩ acc
        = .ok (acc ++ (List.range k).map (fun i => descAt file (pos + 17 * i))) := by
  induction k with
  | zero =>
    intro pos acc _ _
    simp [readSections]
  | succ k ih =>
    intro pos acc hlen hval
    have h0 := hval 0 (by omega)
    rw [Nat.mul_zero, Nat.add_zero] at h0
    rw [readSections_succ, if_neg (by omega), if_neg (by simp [h0]), if_neg (by omega),
      ih (pos + 17) _ (by omega)]
    · rw [List.range_succ_eq_map, List.map_cons, List.map_map, List.append_assoc,
        List.singleton_append]
      congr 3
      apply List.map_congr_left
      intro i _
      simp only [Function.comp_apply]
      congr 1
      omega
    · intro i hi
      have := hval (i + 1) (by omega)
      rw [show pos + 17 * (i + 1) = pos + 17 + 17 * i by omega] at this
      exact this

theorem getLast_of_bytesAt_last (file : File)
    (hm : bytesAt file (file.length - 1) 1 = [MAGIC_VALUE]) :
    file.getLast? = some MAGIC_VALUE := by
  rw [bytesAt_last] at hm
  cases hg : file.getLast? with
  | none => rw [hg] at hm; cases hm
  | some b =>
    rw [hg] at hm
    simp only [Option.toList, List.cons.injEq, and_true] at hm
    rw [hm]

/-! ## Line selection on payloads without NUL bytes -/

/-- For a file whose header parses, a section number in `[1, no_of_sections]`
whose block is granted without wrap and whose payload is fully readable and
holds no NUL byte, and a line number in `[1, totalLines]`, `extractLine` prints
the sanitisation of the segment at forward position
`totalLines - lineNumber + 1` of the payload split on line feeds only. -/
theorem extractLine_selects_line (malloc : Malloc) (file : File) (hdr : SFHeader)
    (sectionNumber lineNumber : Int) (sect : SectionHeader)
    (hh : readSFHeader file = .ok hdr)
    (hs1 : 1 ≤ sectionNumber) (hs2 : sectionNumber ≤ (hdr.no_of_sections : Int))
    (hsect : hdr.sections[(sectionNumber - 1).toNat]? = some sect)
    (hgrant : malloc (allocSize sect.size) = true) (hfit : sect.size + 1 < 2 ^ 32)
    (hread : (payloadOf file sect).length = sect.size)
    (hnul : ∀ b, b ∈ payloadOf file sect → b ≠ 0)
    (hl1 : 1 ≤ lineNumber)
    (hl2 : lineNumber ≤ (specTotalLines (payloadOf file sect) : Int)) :
    ∃ seg,
      (linesOf (payloadOf file sect))[((specTotalLines (payloadOf file sect) : Int)
          - lineNumber).toNat]? = some seg
      ∧ extractLine malloc file sectionNumber lineNumber = .done (.ok (sanitize seg))
      ∧ (lineNumber = 1 →
          (linesOf (payloadOf file sect))[specTotalLines (payloadOf file sect) - 1]? = some seg)
      ∧ (lineNumber = (specTotalLines (payloadOf file sect) : Int) →
          (linesOf (payloadOf file sect))[0]? = some seg) := by
  rw [← totalLines_eq_spec] at hl2 ⊢
  obtain ⟨seg, hseg, hex⟩ := extractFromPayload_ok (payloadOf file sect) lineNumber hl1 hl2
  have hsplit : splitWhere scanDelimiter (payloadOf file sect) = linesOf (payloadOf file sect) := by
    apply splitWhere_congr
    intro b hb
    have := hnul b hb
    simp [scanDelimiter, this]
  rw [hsplit] at hseg
  refine ⟨seg, hseg, ?_, ?_, ?_⟩
  · rw [extractLine_fit malloc file hdr sectionNumber lineNumber sect hh hs1 hs2 hsect hgrant
      hfit, if_neg (by simp [hread]), hex]
  · intro h1
    rw [← hseg, h1]
    congr 1
    omega
  · intro h1
    rw [← hseg, h1]
    congr 1
    omega

/-- On the sample file line 1 of section 1 (`"a\nb\nc"`) is `"c"`, line 1 of
section 2 (`"x\ny\n"`) is `"y"`, and line 3 of section 1 is its first line
`"a"`. -/
theorem extractLine_selects_line_sample :
    readSFHeader sampleFile = .ok sampleHeader
    ∧ specTotalLines (payloadOf sampleFile sampleSection1) = 3
    ∧ specTotalLines (payloadOf sampleFile sampleSection2) = 2
    ∧ extractLine grantAll sampleFile 1 1 = .done (.ok [99])
    ∧ extractLine grantAll sampleFile 2 1 = .done (.ok [121])
    ∧ extractLine grantAll sampleFile 1 3 = .done (.ok [97]) := by
  refine ⟨rfl, by decide, by decide, ?_, ?_, ?_⟩
  · obtain ⟨seg, h1, h2, _⟩ := extractLine_selects_line grantAll sampleFile sampleHeader 1 1
      sampleSection1 rfl (by decide) (by decide) rfl rfl (by decide) (by decide) (by decide)
      (by decide) (by decide)
    have e : seg = [99] := (Option.some.inj h1).symm
    rw [e] at h2
    exact h2
  · obtain ⟨seg, h1, h2, _⟩ := extractLine_selects_line grantAll sampleFile sampleHeader 2 1
      sampleSection2 rfl (by decide) (by decide) rfl rfl (by decide) (by decide) (by decide)
      (by decide) (by decide)
    have e : seg = [121] := (Option.some.inj h1).symm
    rw [e] at h2
    exact h2
  · obtain ⟨seg, h1, h2, _⟩ := extractLine_selects_line grantAll sampleFile sampleHeader 1 3
      sampleSection1 rfl (by decide) (by decide) rfl rfl (by decide) (by decide) (by decide)
      (by decide) (by decide)
    have e : seg = [97] := (Option.some.inj h1).symm
    rw [e] at h2
    exact h2

/-! ## The classifier on runs that stay inside their blocks -/

/-- When no call of `countLinesInSection` stores outside its block,
`hasRequiredSections` returns true exactly when the header parses and at least
2 section indices count 13 lines, and false when the header is rejected. -/
theorem hasRequiredSections_defined_iff (heap : Nat → Malloc) (file : File)
    (hdef : ∀ hdr, readSFHeader file = .ok hdr → ∀ j, j < hdr.no_of_sections →
      countLinesInSection (heap j) (openFile file) hdr j ≠ .undefined) :
    (hasRequiredSections heap file = .done true ↔
      ∃ hdr, readSFHeader file = .ok hdr ∧ 2 ≤ thirteenCount heap file hdr)
    ∧ (∀ r, readSFHeader file = .error r → hasRequiredSections heap file = .done false) := by
  refine ⟨?_, fun r hr => hasRequiredSections_error heap file r hr⟩
  cases hr : readSFHeader file with
  | error r =>
    rw [hasRequiredSections_error heap file r hr]
    simp
  | ok hdr =>
    rw [hasRequiredSections_ok heap file hdr hr (hdef hdr hr)]
    simp

/-- A section of size below 0xFFFFFFFF whose byte range leaves the file counts
0 lines, whether `malloc` returns a block or `NULL`. -/
theorem countLinesInSection_short (malloc : Malloc) (fd : Fd) (hdr : SFHeader) (k : Nat)
    (sect : SectionHeader) (hk : hdr.sections[k]? = some sect)
    (hfit : sect.size + 1 < 2 ^ 32)
    (hshort : ∃ m, sect.offset ≤ m ∧ m < sect.offset + sect.size ∧ fd.file.length ≤ m) :
    countLinesInSection malloc fd hdr k = .done 0 := by
  have hne := (payload_short_iff fd.file sect).2 hshort
  by_cases hg : malloc (allocSize sect.size) = true
  · rw [countLinesInSection_fit malloc fd hdr k sect hk hg hfit, if_pos hne]
  · rw [countLinesInSection_eq malloc fd hdr k sect hk, if_pos hg]

/-- The file `mixedFile`, whose sections 3 to 6 ask for 25 bytes at offset 200:
section 3 counts 0 lines and the two 13-line sections make the result true. -/
theorem hasRequiredSections_mixed_sample :
    readSFHeader mixedFile = .ok mixedHeader
    ∧ countLinesInSection grantAll (openFile mixedFile) mixedHeader 2 = .done 0
    ∧ hasRequiredSections (fun _ => grantAll) mixedFile = .done true
    ∧ hasRequiredSections (fun _ => grantAll) thirteenFile = .done true
    ∧ hasRequiredSections (fun _ => grantAll) sampleFile = .done false :=
  ⟨rfl, countLinesInSection_short grantAll (openFile mixedFile) mixedHeader 2 mixedSection3 rfl
    (by decide) ⟨200, by decide, by decide, by decide⟩, rfl, rfl, rfl⟩

/-! ## Header decoding and validation -/

/-- C1. When `readSFHeader` succeeds on a file of length `L` whose stored
header size is `h`, then `h ≤ L`, the header keeps `h`, its version is the
little-endian value of the 4 bytes at `L - h`, its section count `n` is the byte
at `L - h + 4`, all `n` descriptors lie inside the file, and the descriptors are,
in on-disk order, those stored at `L - h + 5 + 17 * i` for `i < n`: 7 name bytes
followed by a NUL, the 16-bit type at `+7`, the 32-bit offset at `+9` and the
32-bit size at `+13`. -/
theorem readSFHeader_decodes (file : File) (hdr : SFHeader)
    (h : readSFHeader file = .ok hdr) :
    storedHeaderSize file ≤ file.length
    ∧ hdr.header_size = storedHeaderSize file
    ∧ hdr.version = leValue (bytesAt file (file.length - storedHeaderSize file) 4)
    ∧ hdr.no_of_sections = leValue (bytesAt file (file.length - storedHeaderSize file + 4) 1)
    ∧ file.length - storedHeaderSize file + 5 + 17 * hdr.no_of_sections ≤ file.length
    ∧ hdr.sections = (List.range hdr.no_of_sections).map
        (fun i => descAt file (file.length - storedHeaderSize file + 5 + 17 * i))
    ∧ ∀ i, i < hdr.no_of_sections → ∃ s, hdr.sections[i]? = some s
        ∧ s.name = bytesAt file (file.length - storedHeaderSize file + 5 + 17 * i) 7 ++ [0]
        ∧ s.type = leValue (bytesAt file (file.length - storedHeaderSize file + 5 + 17 * i + 7) 2)
        ∧ s.offset = leValue (bytesAt file (file.length - storedHeaderSize file + 5 + 17 * i + 9) 4)
        ∧ s.size = leValue (bytesAt file (file.length - storedHeaderSize file + 5 + 17 * i + 13) 4) := by
  obtain ⟨_, _, _, hle, hp, _, hn, hs, hv, hc, hsz, _⟩ := readSFHeader_ok file hdr h
  rw [← hc] at hs hn
  obtain ⟨e, _, b⟩ := readSections_ok file _ _ _ _ hs
  rw [hp] at e b hv hc
  have e2 : hdr.sections = (List.range hdr.no_of_sections).map
      (fun i => descAt file (file.length - storedHeaderSize file + 5 + 17 * i)) := by
    rw [e, List.nil_append]
  refine ⟨hle, hsz, hv, hc, ?_, e2, ?_⟩
  · rcases b with b | b
    · omega
    · exact b
  · intro i hi
    refine ⟨descAt file (file.length - storedHeaderSize file + 5 + 17 * i), ?_, rfl, rfl, rfl, rfl⟩
    rw [e2, List.getElem?_map, List.getElem?_range hi]
    rfl

/-- The decoding statement holds on the sample file, where it reads back the
header of the round-trip scenario. -/
theorem readSFHeader_decodes_witness :
    readSFHeader sampleFile = .ok sampleHeader
    ∧ sampleHeader.version = leValue (bytesAt sampleFile (sampleFile.length - 42) 4)
    ∧ sampleHeader.sections = (List.range 2).map
        (fun i => descAt sampleFile (sampleFile.length - 42 + 5 + 17 * i)) :=
  have h := readSFHeader_decodes sampleFile sampleHeader rfl
  ⟨rfl, h.2.2.1, h.2.2.2.2.2.1⟩

/-- C2. A header returned with success by `readSFHeader` or by
`readSFHeaderWithoutMessages` has its version in [84,163], a section count that
is 2 or in [6,14] (so at most 14, below the 16 slots of the array), exactly that
many populated descriptors, and only descriptor types among 80, 43, 38, 23, 81. -/
theorem readSFHeader_valid (file : File) (hdr : SFHeader)
    (h : readSFHeader file = .ok hdr ∨ readSFHeaderWithoutMessages file = some hdr) :
    (84 ≤ hdr.version ∧ hdr.version ≤ 163)
    ∧ (hdr.no_of_sections = 2 ∨ (6 ≤ hdr.no_of_sections ∧ hdr.no_of_sections ≤ 14))
    ∧ hdr.no_of_sections ≤ 14 ∧ hdr.no_of_sections < MAX_SECTIONS
    ∧ hdr.sections.length = hdr.no_of_sections
    ∧ ∀ s, s ∈ hdr.sections → s.type ∈ [80, 43, 38, 23, 81] := by
  have h1 : readSFHeader file = .ok hdr := by
    rcases h with h | h
    · exact h
    · rw [readSFHeaderWithoutMessages_toOption] at h
      exact (toOption_eq_some_iff _ _).1 h
  obtain ⟨_, _, _, _, _, hver, hn, hs, hv, hc, _, _⟩ := readSFHeader_ok file hdr h1
  rw [← hc] at hs hn
  rw [← hv] at hver
  obtain ⟨e, v, _⟩ := readSections_ok file _ _ _ _ hs
  have hver2 : 84 ≤ hdr.version ∧ hdr.version ≤ 163 := hver
  refine ⟨hver2, hn, ?_, ?_, ?_, ?_⟩
  · omega
  · unfold MAX_SECTIONS; omega
  · rw [e]; simp
  · intro s hs
    rw [e, List.nil_append, List.mem_map] at hs
    obtain ⟨i, hi, rfl⟩ := hs
    exact (validType_iff _).1 (v i (List.mem_range.1 hi))

/-- The validity statement applies to the sample file, through either reader. -/
theorem readSFHeader_valid_witness :
    (readSFHeader sampleFile = .ok sampleHeader
      ∨ readSFHeaderWithoutMessages sampleFile = some sampleHeader)
    ∧ sampleHeader.sections.length = sampleHeader.no_of_sections
    ∧ sampleHeader.no_of_sections ≤ 14 :=
  have h := readSFHeader_valid sampleFile sampleHeader (Or.inl rfl)
  ⟨Or.inr rfl, h.2.2.2.2.1, h.2.2.1⟩

/-! ## Line extraction -/

/-- C3, at the input where the code departs from it.  In `nulFile` the header
parses, section 1 is the fully readable payload `"a\0b\nc"`, and `totalLines` is
2 because only line feeds are counted.  For line number 1 the claim gives the
segment at position `2 - 1 + 1 = 2` of the split on line feeds, `"c"`, the last
line; `extractLine` prints `"b"`, because its scan also ends a line at the NUL
byte. -/
theorem extractLine_nul_counterexample :
    readSFHeader nulFile = .ok sampleHeader
    ∧ sampleHeader.sections[((1 : Int) - 1).toNat]? = some sampleSection1
    ∧ payloadOf nulFile sampleSection1 = [97, 0, 98, 10, 99]
    ∧ (payloadOf nulFile sampleSection1).length = sampleSection1.size
    ∧ totalLines (payloadOf nulFile sampleSection1) = 2
    ∧ specTotalLines (payloadOf nulFile sampleSection1) = 2
    ∧ (linesOf (payloadOf nulFile sampleSection1))[((2 : Int) - 1).toNat]? = some [99]
    ∧ sanitize [99] = [99]
    ∧ extractLine grantAll nulFile 1 1 = .done (.ok [98])
    ∧ extractLine grantAll nulFile 1 1 ≠ .done (.ok (sanitize [99])) := by
  refine ⟨rfl, rfl, rfl, rfl, rfl, rfl, rfl, rfl, rfl, ?_⟩
  intro h
  have e : extractLine grantAll nulFile 1 1 = .done (.ok [98]) := rfl
  rw [e] at h
  have := Except.ok.inj (Outcome.done.inj h)
  exact absurd this (by decide)

/-! ## Classification and line counting -/

/-- C4, at the input where the code departs from it.  The header of the 42-byte
`wrapFile` parses; its first descriptor has offset 0 and size 0xFFFFFFFF, so
`malloc` is asked for `0xFFFFFFFF + 1 = 0` bytes and, once that block is
granted, `read` stores the 42 bytes of the file past its end: the call of
`countLinesInSection` for index 0 does not return, and neither
`hasRequiredSections` nor `hasRequiredSectionsWithoutMessages` returns the
boolean the claim states (false, no section counting 13 lines). -/
theorem hasRequiredSections_wrap_undefined :
    readSFHeader wrapFile = .ok wrapHeader
    ∧ wrapFile.length = 42
    ∧ wrapHeader.sections[0]? = some wrapSection
    ∧ allocSize wrapSection.size = 0
    ∧ (read (lseekSet (openFile wrapFile) wrapSection.offset) wrapSection.size).1.length = 42
    ∧ countLinesInSection grantAll (openFile wrapFile) wrapHeader 0 = .undefined
    ∧ hasRequiredSections (fun _ => grantAll) wrapFile = .undefined
    ∧ hasRequiredSectionsWithoutMessages (fun _ => grantAll) wrapFile = .undefined
    ∧ hasRequiredSections (fun _ => grantAll) wrapFile ≠ .done false :=
  ⟨rfl, rfl, rfl, rfl, rfl, rfl, rfl, rfl, by decide⟩

/-- C7. Whenever `extractLine` succeeds, whatever `malloc` answered, every byte
of the text it prints has a value in [32,126] and the text is at most 1023 bytes
long. -/
theorem extractLine_output_printable (malloc : Malloc) (file : File)
    (sectionNumber lineNumber : Int)
    (out : List Byte) (h : extractLine malloc file sectionNumber lineNumber = .done (.ok out)) :
    (∀ b, b ∈ out → 32 ≤ b.val ∧ b.val ≤ 126) ∧ out.length ≤ 1023 := by
  obtain ⟨payload, hp⟩ := extractLine_inv malloc file sectionNumber lineNumber out h
  obtain ⟨seg, rfl⟩ := extractFromPayload_inv payload lineNumber out hp
  exact sanitize_printable seg

/-- The output statement on the sample file, whose last line of section 1 is
the single printable byte `c`. -/
theorem extractLine_output_printable_witness :
    extractLine grantAll sampleFile 1 1 = .done (.ok [99])
    ∧ (∀ b, b ∈ ([99] : List Byte) → 32 ≤ b.val ∧ b.val ≤ 126)
    ∧ ([99] : List Byte).length ≤ 1023 :=
  have h := extractLine_output_printable grantAll sampleFile 1 1 [99] rfl
  ⟨rfl, h.1, h.2⟩

/-! ## Verbose and silent readers -/

/-- C8. `readSFHeaderWithoutMessages` succeeds exactly when `readSFHeader` does
and then returns the same header, it fails exactly when `readSFHeader` reports
some failure, and `hasRequiredSectionsWithoutMessages` has the same outcome as
`hasRequiredSections`, on every file and whatever `malloc` answers. -/
theorem silent_reader_agrees (file : File) :
    (∀ hdr, readSFHeaderWithoutMessages file = some hdr ↔ readSFHeader file = .ok hdr)
    ∧ (readSFHeaderWithoutMessages file = none ↔ ∃ r, readSFHeader file = .error r)
    ∧ ∀ heap : Nat → Malloc,
        hasRequiredSectionsWithoutMessages heap file = hasRequiredSections heap file := by
  refine ⟨fun hdr => ?_, ?_, fun heap => hasRequiredSectionsWithoutMessages_eq heap file⟩
  · rw [readSFHeaderWithoutMessages_toOption]
    exact toOption_eq_some_iff _ _
  · rw [readSFHeaderWithoutMessages_toOption]
    cases readSFHeader file with
    | error r => simp [Except.toOption]
    | ok hdr => simp [Except.toOption]

/-- C9. On a file of at least 3 bytes whose last byte is not the sentinel `z`,
`readSFHeader` fails with `wrong magic`, whatever the rest of the file holds. -/
theorem readSFHeader_wrongMagic (file : File) (h3 : 3 ≤ file.length)
    (hl : file.getLast? ≠ some MAGIC_VALUE) :
    readSFHeader file = .error .wrongMagic
    ∧ Reason.message .wrongMagic = "ERROR\n wrong magic" := by
  refine ⟨?_, rfl⟩
  rw [readSFHeader_eq file h3, if_pos]
  rw [bytesAt_last]
  intro hc
  apply hl
  cases hg : file.getLast? with
  | none => rw [hg] at hc; cases hc
  | some b =>
    rw [hg] at hc
    simp only [Option.toList, List.cons.injEq, and_true] at hc
    rw [hc]

/-- The wrong-magic statement applies to a file ending in `y`, although its
header size, version and section count are acceptable. -/
theorem readSFHeader_wrongMagic_witness :
    3 ≤ wrongMagicFile.length ∧ wrongMagicFile.getLast? ≠ some MAGIC_VALUE
    ∧ readSFHeader wrongMagicFile = .error .wrongMagic :=
  ⟨by decide, by decide, (readSFHeader_wrongMagic wrongMagicFile (by decide) (by decide)).1⟩

/-- C10. On a file whose last byte is the sentinel and whose 4 version bytes at
offset `L - headerSize` can be read, `readSFHeader` fails with `wrong version`
when the decoded version is below 84 or above 163, and does not fail with
`wrong version` when the version is in [84,163], in particular at 84 and at 163. -/
theorem readSFHeader_wrongVersion (file : File)
    (hz : file.getLast? = some MAGIC_VALUE)
    (hle : storedHeaderSize file ≤ file.length)
    (hrd : (bytesAt file (file.length - storedHeaderSize file) 4).length = 4) :
    ((leValue (bytesAt file (file.length - storedHeaderSize file) 4) < 84
        ∨ 163 < leValue (bytesAt file (file.length - storedHeaderSize file) 4)) →
      readSFHeader file = .error .wrongVersion
        ∧ Reason.message .wrongVersion = "ERROR\n wrong version")
    ∧ ((84 ≤ leValue (bytesAt file (file.length - storedHeaderSize file) 4)
        ∧ leValue (bytesAt file (file.length - storedHeaderSize file) 4) ≤ 163) →
      readSFHeader file ≠ .error .wrongVersion)
    ∧ ((leValue (bytesAt file (file.length - storedHeaderSize file) 4) = 84
        ∨ leValue (bytesAt file (file.length - storedHeaderSize file) 4) = 163) →
      readSFHeader file ≠ .error .wrongVersion) := by
  rw [bytesAt_length] at hrd
  have h3 : 3 ≤ file.length := by omega
  have hp : headerPos file = file.length - storedHeaderSize file := by
    unfold headerPos
    rw [if_pos hle]
  have hm : bytesAt file (file.length - 1) 1 = [MAGIC_VALUE] := by
    rw [bytesAt_last, hz]; rfl
  have key : readSFHeader file = .error .wrongVersion ↔
      (leValue (bytesAt file (file.length - storedHeaderSize file) 4) < 84
        ∨ 163 < leValue (bytesAt file (file.length - storedHeaderSize file) 4)) := by
    rw [readSFHeader_eq file h3, if_neg (by simp [hm]), if_neg (by omega), hp]
    by_cases hv : leValue (bytesAt file (file.length - storedHeaderSize file) 4) < 84
        ∨ 163 < leValue (bytesAt file (file.length - storedHeaderSize file) 4)
    · have hv2 : leValue (bytesAt file (file.length - storedHeaderSize file) 4) < MIN_VERSION
          ∨ leValue (bytesAt file (file.length - storedHeaderSize file) 4) > MAX_VERSION := hv
      rw [if_pos hv2]
      simp [hv]
    · have hv2 : ¬ (leValue (bytesAt file (file.length - storedHeaderSize file) 4) < MIN_VERSION
          ∨ leValue (bytesAt file (file.length - storedHeaderSize file) 4) > MAX_VERSION) := hv
      rw [if_neg hv2]
      simp only [hv, iff_false]
      split_ifs
      · simp
      · simp
      · intro hc
        split at hc
        · rename_i r hr
          rcases readSections_error _ _ _ _ _ hr with e | e <;> rw [e] at hc <;> cases hc
        · cases hc
  refine ⟨fun hv => ⟨key.2 hv, rfl⟩, fun hv hc => ?_, fun hv hc => ?_⟩
  · have := key.1 hc; omega
  · have := key.1 hc; omega

/-- The wrong-version statement applies to a file with the sentinel, header
size 8 and version 83, which is rejected with `wrong version`. -/
theorem readSFHeader_wrongVersion_witness :
    lowVersionFile.getLast? = some MAGIC_VALUE
    ∧ storedHeaderSize lowVersionFile ≤ lowVersionFile.length
    ∧ (bytesAt lowVersionFile (lowVersionFile.length - storedHeaderSize lowVersionFile) 4).length = 4
    ∧ readSFHeader lowVersionFile = .error .wrongVersion :=
  ⟨by decide, by decide, by decide,
    ((readSFHeader_wrongVersion lowVersionFile (by decide) (by decide) (by decide)).1
      (Or.inl (by decide))).1⟩

/-! ## Failure kinds of the header reader -/

/-- C11. On a file with the sentinel, a readable version in [84,163] and a
readable section-count byte, `readSFHeader` fails with `wrong sect_nr` exactly
when the section count is neither 2 nor in [6,14], whatever bytes the descriptor
area holds; so the counts 0, 1, 3, 4, 5 and everything above 14 are rejected. -/
theorem readSFHeader_wrongSectNr_iff (file : File)
    (hz : file.getLast? = some MAGIC_VALUE)
    (hle : storedHeaderSize file ≤ file.length)
    (_hrd : (bytesAt file (file.length - storedHeaderSize file) 4).length = 4)
    (hver : 84 ≤ leValue (bytesAt file (file.length - storedHeaderSize file) 4)
      ∧ leValue (bytesAt file (file.length - storedHeaderSize file) 4) ≤ 163)
    (hcnt : (bytesAt file (file.length - storedHeaderSize file + 4) 1).length = 1) :
    (readSFHeader file = .error .wrongSectNr ↔
      (leValue (bytesAt file (file.length - storedHeaderSize file + 4) 1) ≠ 2
        ∧ (leValue (bytesAt file (file.length - storedHeaderSize file + 4) 1) < 6
          ∨ 14 < leValue (bytesAt file (file.length - storedHeaderSize file + 4) 1))))
    ∧ ((leValue (bytesAt file (file.length - storedHeaderSize file + 4) 1) ∈ [0, 1, 3, 4, 5]
        ∨ 15 ≤ leValue (bytesAt file (file.length - storedHeaderSize file + 4) 1)) →
      readSFHeader file = .error .wrongSectNr)
    ∧ Reason.message .wrongSectNr = "ERROR\n wrong sect_nr" := by
  rw [bytesAt_length] at hcnt
  have h3 : 3 ≤ file.length := by omega
  have hp := headerPos_of_le file hle
  have hm := bytesAt_last_of_getLast file hz
  have hv2 : ¬ (leValue (bytesAt file (file.length - storedHeaderSize file) 4) < MIN_VERSION
      ∨ leValue (bytesAt file (file.length - storedHeaderSize file) 4) > MAX_VERSION) := by
    unfold MIN_VERSION MAX_VERSION
    omega
  have key : readSFHeader file = .error .wrongSectNr ↔
      (leValue (bytesAt file (file.length - storedHeaderSize file + 4) 1) ≠ 2
        ∧ (leValue (bytesAt file (file.length - storedHeaderSize file + 4) 1) < 6
          ∨ 14 < leValue (bytesAt file (file.length - storedHeaderSize file + 4) 1))) := by
    rw [readSFHeader_eq file h3, if_neg (by simp [hm]), if_neg (by omega), hp, if_neg hv2,
      if_neg (by omega)]
    by_cases hn : leValue (bytesAt file (file.length - storedHeaderSize file + 4) 1) ≠ 2
        ∧ (leValue (bytesAt file (file.length - storedHeaderSize file + 4) 1) < 6
          ∨ leValue (bytesAt file (file.length - storedHeaderSize file + 4) 1) > 14)
    · rw [if_pos hn]
      simp only [true_iff]
      exact hn
    · rw [if_neg hn]
      constructor
      · intro hc
        split at hc
        · rename_i r hr
          rcases readSections_error _ _ _ _ _ hr with e | e <;> rw [e] at hc <;> cases hc
        · cases hc
      · intro hc
        exact absurd hc hn
  refine ⟨key, fun hc => key.2 ?_, rfl⟩
  rcases hc with hc | hc
  · simp only [List.mem_cons, List.mem_singleton, List.not_mem_nil, or_false] at hc
    omega
  · omega

/-- The section-count statement applies to a file with version 100 and a
section count of 3, which is refused with `wrong sect_nr`. -/
theorem readSFHeader_wrongSectNr_iff_witness :
    badCountFile.getLast? = some MAGIC_VALUE
    ∧ storedHeaderSize badCountFile ≤ badCountFile.length
    ∧ leValue (bytesAt badCountFile (badCountFile.length - storedHeaderSize badCountFile) 4) = 100
    ∧ leValue (bytesAt badCountFile (badCountFile.length - storedHeaderSize badCountFile + 4) 1) = 3
    ∧ readSFHeader badCountFile = .error .wrongSectNr :=
  ⟨by decide, by decide, by decide, by decide,
    (readSFHeader_wrongSectNr_iff badCountFile (by decide) (by decide) (by decide) (by decide)
      (by decide)).2.1 (Or.inl (by decide))⟩

/-- C12. On a file with the sentinel, a version in [84,163] and an accepted
section count `n`, if descriptor `i < n` is the first whose type is not among
80, 43, 38, 23, 81, and the file reaches to the end of the type field of
descriptor `i` (so the earlier descriptors are complete and the 7 name bytes and
2 type bytes of descriptor `i` are readable), then `readSFHeader` fails with
`wrong sect_types`, whatever follows the type field of descriptor `i`. -/
theorem readSFHeader_wrongSectTypes (file : File) (i : Nat)
    (hz : file.getLast? = some MAGIC_VALUE)
    (hle : storedHeaderSize file ≤ file.length)
    (hver : 84 ≤ leValue (bytesAt file (file.length - storedHeaderSize file) 4)
      ∧ leValue (bytesAt file (file.length - storedHeaderSize file) 4) ≤ 163)
    (hn : leValue (bytesAt file (file.length - storedHeaderSize file + 4) 1) = 2
      ∨ (6 ≤ leValue (bytesAt file (file.length - storedHeaderSize file + 4) 1)
        ∧ leValue (bytesAt file (file.length - storedHeaderSize file + 4) 1) ≤ 14))
    (hi : i < leValue (bytesAt file (file.length - storedHeaderSize file + 4) 1))
    (hgood : ∀ j, j < i →
      (descAt file (file.length - storedHeaderSize file + 5 + 17 * j)).type
        ∈ [80, 43, 38, 23, 81])
    (hbad : (descAt file (file.length - storedHeaderSize file + 5 + 17 * i)).type
      ∉ [80, 43, 38, 23, 81])
    (hlen : file.length - storedHeaderSize file + 5 + 17 * i + 9 ≤ file.length) :
    readSFHeader file = .error .wrongSectTypes
    ∧ Reason.message .wrongSectTypes = "ERROR\n wrong sect_types" := by
  refine ⟨?_, rfl⟩
  have h3 : 3 ≤ file.length := by omega
  have hp := headerPos_of_le file hle
  have hm := bytesAt_last_of_getLast file hz
  have hv2 : ¬ (leValue (bytesAt file (file.length - storedHeaderSize file) 4) < MIN_VERSION
      ∨ leValue (bytesAt file (file.length - storedHeaderSize file) 4) > MAX_VERSION) := by
    unfold MIN_VERSION MAX_VERSION
    omega
  have hn2 : ¬ (leValue (bytesAt file (file.length - storedHeaderSize file + 4) 1) ≠ 2
      ∧ (leValue (bytesAt file (file.length - storedHeaderSize file + 4) 1) < 6
        ∨ leValue (bytesAt file (file.length - storedHeaderSize file + 4) 1) > 14)) := by
    omega
  rw [readSFHeader_eq file h3, if_neg (by simp [hm]), if_neg (by omega), hp, if_neg hv2,
    if_neg (by omega), if_neg hn2]
  have hb : validType (descAt file (file.length - storedHeaderSize file + 5 + 17 * i)).type
      = false := by
    cases hvt : validType (descAt file (file.length - storedHeaderSize file + 5 + 17 * i)).type
    · rfl
    · exact absurd ((validType_iff _).1 hvt) hbad
  rw [readSections_wrongType file i _ _ [] hi
    (fun j hj => (validType_iff _).2 (hgood j hj)) hb hlen]

/-- The section-type statement applies to a 17-byte file whose first descriptor
has type 99 and no complete offset field: it is refused with `wrong sect_types`,
not with `invalid file`. -/
theorem readSFHeader_wrongSectTypes_witness :
    badTypeFile.getLast? = some MAGIC_VALUE
    ∧ storedHeaderSize badTypeFile ≤ badTypeFile.length
    ∧ (descAt badTypeFile (badTypeFile.length - storedHeaderSize badTypeFile + 5 + 17 * 0)).type
        = 99
    ∧ badTypeFile.length < badTypeFile.length - storedHeaderSize badTypeFile + 5 + 17 * 0 + 13
    ∧ readSFHeader badTypeFile = .error .wrongSectTypes :=
  ⟨by decide, by decide, by decide, by decide,
    (readSFHeader_wrongSectTypes badTypeFile 0 (by decide) (by decide) (by decide)
      (Or.inl (by decide)) (by decide) (fun j hj => absurd hj (Nat.not_lt_zero j))
      (by decide) (by decide)).1⟩

/-- C13. On a file shorter than 3 bytes `readSFHeader` fails with
`invalid file`, whatever its bytes are, the sentinel included. -/
theorem readSFHeader_tooShort (file : File) (h : file.length < 3) :
    readSFHeader file = .error .invalidFile
    ∧ Reason.message .invalidFile = "ERROR\n invalid file" :=
  ⟨readSFHeader_short file h, rfl⟩

/-- The short-file statement applies to the empty file, to the one-byte file
`z` and to a two-byte file ending in `z`. -/
theorem readSFHeader_tooShort_witness :
    readSFHeader [] = .error .invalidFile
    ∧ readSFHeader [122] = .error .invalidFile
    ∧ readSFHeader [2, 122] = .error .invalidFile
    ∧ readSFHeader [122, 121] = .error .invalidFile :=
  ⟨(readSFHeader_tooShort [] (by decide)).1, (readSFHeader_tooShort [122] (by decide)).1,
    (readSFHeader_tooShort [2, 122] (by decide)).1,
    (readSFHeader_tooShort [122, 121] (by decide)).1⟩

/-- C14. On a file of length `L ≥ 3` with the sentinel whose stored header size
exceeds `L`, the seek to `L - headerSize` is refused, the position stays at
`L - 1` where the read of the header size ended, the 4-byte version read
delivers a single byte, and `readSFHeader` fails with `invalid file`, hence with
none of `wrong version`, `wrong sect_nr`, `wrong sect_types`. -/
theorem readSFHeader_headerSize_too_large (file : File) (h3 : 3 ≤ file.length)
    (hz : file.getLast? = some MAGIC_VALUE)
    (hgt : file.length < storedHeaderSize file) :
    readSFHeader file = .error .invalidFile
    ∧ readSFHeader file ≠ .error .wrongVersion
    ∧ readSFHeader file ≠ .error .wrongSectNr
    ∧ readSFHeader file ≠ .error .wrongSectTypes
    ∧ (∀ p, (read (lseekEnd ⟨file, p⟩ (-3)) 2).2.pos = file.length - 1)
    ∧ (lseekEnd ⟨file, file.length - 1⟩ (-(storedHeaderSize file : Int))).pos = file.length - 1
    ∧ (read ⟨file, file.length - 1⟩ 4).1.length = 1 := by
  have hp := headerPos_of_gt file hgt
  have hm := bytesAt_last_of_getLast file hz
  have e : readSFHeader file = .error .invalidFile := by
    rw [readSFHeader_eq file h3, if_neg (by simp [hm]), hp, if_pos (by omega)]
  refine ⟨e, ?_, ?_, ?_, ?_, ?_, ?_⟩
  · rw [e]; intro hc; cases hc
  · rw [e]; intro hc; cases hc
  · rw [e]; intro hc; cases hc
  · intro p
    have := lseekEnd_neg file p 3
    rw [if_pos h3] at this
    have e3 : lseekEnd ⟨file, p⟩ (-3) = ⟨file, file.length - 3⟩ := this
    rw [e3, read_snd]
    simp only
    omega
  · rw [lseekEnd_neg, if_neg (by omega)]
  · rw [read_fst, bytesAt_length]
    omega

/-- The oversized-header statement applies to an 8-byte file whose stored
header size is 65535. -/
theorem readSFHeader_headerSize_too_large_witness :
    3 ≤ hugeHeaderSizeFile.length
    ∧ hugeHeaderSizeFile.getLast? = some MAGIC_VALUE
    ∧ storedHeaderSize hugeHeaderSizeFile = 65535
    ∧ readSFHeader hugeHeaderSizeFile = .error .invalidFile :=
  ⟨by decide, by decide, by decide,
    (readSFHeader_headerSize_too_large hugeHeaderSizeFile (by decide) (by decide)
      (by decide)).1⟩

/-! ## Failure kinds of line extraction -/

/-- C15. On a file whose header parses, `extractLine` fails with
`invalid section` whenever the section number is below 1 or above the section
count, for every line number, whatever the payloads hold and whatever `malloc`
would answer; 0 and `no_of_sections + 1` are refused, while for 1 and for
`no_of_sections` the descriptor is looked up and the outcome is that of the
allocation, of the payload read and of the line extraction. -/
theorem extractLine_section_out_of_range (malloc : Malloc) (file : File) (hdr : SFHeader)
    (sectionNumber lineNumber : Int) (hh : readSFHeader file = .ok hdr) :
    ((sectionNumber < 1 ∨ sectionNumber > (hdr.no_of_sections : Int)) →
      extractLine malloc file sectionNumber lineNumber = .done (.error .invalidSection))
    ∧ extractLine malloc file 0 lineNumber = .done (.error .invalidSection)
    ∧ extractLine malloc file ((hdr.no_of_sections : Int) + 1) lineNumber
        = .done (.error .invalidSection)
    ∧ ((sectionNumber = 1 ∨ sectionNumber = (hdr.no_of_sections : Int)) →
      ∃ sect, hdr.sections[(sectionNumber - 1).toNat]? = some sect
        ∧ extractLine malloc file sectionNumber lineNumber =
          if ¬ malloc (allocSize sect.size) then .done (.error .memoryError)
          else if (payloadOf file sect).length > allocSize sect.size then .undefined
          else if (payloadOf file sect).length ≠ sect.size then .done (.error .invalidSection)
          else if ¬ sect.size < allocSize sect.size then .undefined
          else .done (extractFromPayload (payloadOf file sect) lineNumber))
    ∧ Reason.message .invalidSection = "ERROR\n invalid section" := by
  have out : ∀ s : Int, (s < 1 ∨ s > (hdr.no_of_sections : Int)) →
      extractLine malloc file s lineNumber = .done (.error .invalidSection) := by
    intro s hs
    unfold extractLine
    simp only [hh]
    rw [if_pos hs]
  refine ⟨out sectionNumber, out 0 (Or.inl (by decide)), out _ (Or.inr (by omega)), ?_, rfl⟩
  intro hs
  have hlen := readSFHeader_sections_length file hdr hh
  obtain ⟨_, _, _, _, _, _, hn, _, _, hc, _, _⟩ := readSFHeader_ok file hdr hh
  rw [← hc] at hn
  have hs1 : 1 ≤ sectionNumber := by omega
  have hs2 : sectionNumber ≤ (hdr.no_of_sections : Int) := by omega
  have hidx : (sectionNumber - 1).toNat < hdr.sections.length := by omega
  exact ⟨hdr.sections[(sectionNumber - 1).toNat], List.getElem?_eq_getElem hidx,
    extractLine_eq malloc file hdr sectionNumber lineNumber _ hh hs1 hs2
      (List.getElem?_eq_getElem hidx)⟩

/-- The section-range statement on the sample file (2 sections): section
numbers 0, 3 and -1 are refused with `invalid section`, also when `malloc`
would return `NULL` for every request. -/
theorem extractLine_section_out_of_range_witness :
    readSFHeader sampleFile = .ok sampleHeader
    ∧ extractLine grantAll sampleFile 0 1 = .done (.error .invalidSection)
    ∧ extractLine grantAll sampleFile 3 1 = .done (.error .invalidSection)
    ∧ extractLine grantAll sampleFile (-1) 1 = .done (.error .invalidSection)
    ∧ extractLine (fun _ => false) sampleFile 3 1 = .done (.error .invalidSection) :=
  ⟨rfl, (extractLine_section_out_of_range grantAll sampleFile sampleHeader 0 1 rfl).2.1,
    (extractLine_section_out_of_range grantAll sampleFile sampleHeader 0 1 rfl).2.2.1,
    (extractLine_section_out_of_range grantAll sampleFile sampleHeader (-1) 1 rfl).1
      (Or.inl (by decide)),
    (extractLine_section_out_of_range (fun _ => false) sampleFile sampleHeader 0 1 rfl).2.2.1⟩

/-- C16, as amended.  On a file whose header parses, for a section number in
`[1, no_of_sections]` whose descriptor has a size below 0xFFFFFFFF and
designates a byte range `[offset, offset + size)` with some byte outside the
file, `extractLine` fails for every line number: with `memory error` when
`malloc` returns `NULL` for the `size + 1` bytes, and with `invalid section`
when the block is granted, the payload read being short. -/
theorem extractLine_short_payload (malloc : Malloc) (file : File) (hdr : SFHeader)
    (sectionNumber lineNumber : Int) (sect : SectionHeader)
    (hh : readSFHeader file = .ok hdr)
    (hs1 : 1 ≤ sectionNumber) (hs2 : sectionNumber ≤ (hdr.no_of_sections : Int))
    (hsect : hdr.sections[(sectionNumber - 1).toNat]? = some sect)
    (hfit : sect.size + 1 < 2 ^ 32)
    (hshort : ∃ k, sect.offset ≤ k ∧ k < sect.offset + sect.size ∧ file.length ≤ k) :
    (malloc (sect.size + 1) = false →
      extractLine malloc file sectionNumber lineNumber = .done (.error .memoryError))
    ∧ (malloc (sect.size + 1) = true →
      extractLine malloc file sectionNumber lineNumber = .done (.error .invalidSection))
    ∧ (read (lseekSet (openFile file) sect.offset) sect.size).1.length < sect.size
    ∧ Reason.message .invalidSection = "ERROR\n invalid section"
    ∧ Reason.message .memoryError = "ERROR\n memory error" := by
  have hne := (payload_short_iff file sect).2 hshort
  have ha := allocSize_of_lt sect.size hfit
  refine ⟨?_, ?_, ?_, rfl, rfl⟩
  · intro hg
    rw [← ha] at hg
    rw [extractLine_eq malloc file hdr sectionNumber lineNumber sect hh hs1 hs2 hsect,
      if_pos (by simp [hg])]
  · intro hg
    rw [← ha] at hg
    rw [extractLine_fit malloc file hdr sectionNumber lineNumber sect hh hs1 hs2 hsect hg hfit,
      if_pos hne]
  · have hle := payloadOf_length_le file sect
    have e : (read (lseekSet (openFile file) sect.offset) sect.size).1 = payloadOf file sect :=
      rfl
    rw [e]
    omega

/-- The short-payload statement on a file whose second descriptor asks for 4
bytes at offset 200: with the block granted, line number 1 and the out-of-range
line number 77 are both refused with `invalid section`; with `NULL` returned the
failure is `memory error`. -/
theorem extractLine_short_payload_witness :
    readSFHeader shortPayloadFile = .ok shortPayloadHeader
    ∧ shortPayloadHeader.sections[((2 : Int) - 1).toNat]? = some shortSection
    ∧ shortSection.size + 1 < 2 ^ 32
    ∧ shortPayloadFile.length ≤ 200
    ∧ extractLine grantAll shortPayloadFile 2 1 = .done (.error .invalidSection)
    ∧ extractLine grantAll shortPayloadFile 2 77 = .done (.error .invalidSection)
    ∧ extractLine (fun _ => false) shortPayloadFile 2 1 = .done (.error .memoryError) :=
  ⟨rfl, rfl, by decide, by decide,
    (extractLine_short_payload grantAll shortPayloadFile shortPayloadHeader 2 1 shortSection rfl
      (by decide) (by decide) rfl (by decide) ⟨200, by decide, by decide, by decide⟩).2.1 rfl,
    (extractLine_short_payload grantAll shortPayloadFile shortPayloadHeader 2 77 shortSection
      rfl (by decide) (by decide) rfl (by decide) ⟨200, by decide, by decide, by decide⟩).2.1
      rfl,
    (extractLine_short_payload (fun _ => false) shortPayloadFile shortPayloadHeader 2 1
      shortSection rfl (by decide) (by decide) rfl (by decide)
      ⟨200, by decide, by decide, by decide⟩).1 rfl⟩

/-- C16 as stated fails.  The header of the 42-byte `oversizeFile` parses and
its first descriptor asks for 0xF0000000 bytes at offset 0, a range that leaves
the file; when `malloc` returns `NULL` for requests above 2 GiB, `extractLine`
prints `memory error`, not `invalid section`.  On `wrapFile`, whose first
descriptor has size 0xFFFFFFFF, the request is for 0 bytes and the read stores
the 42 bytes of the file past the block, so no failure is reported at all. -/
theorem extractLine_short_payload_counterexample :
    readSFHeader oversizeFile = .ok oversizeHeader
    ∧ oversizeHeader.sections[((1 : Int) - 1).toNat]? = some oversizeSection
    ∧ oversizeFile.length ≤ oversizeSection.offset + oversizeSection.size - 1
    ∧ allocSize oversizeSection.size = 4026531841
    ∧ grantUpTo (2 ^ 31) 4026531841 = false
    ∧ extractLine (grantUpTo (2 ^ 31)) oversizeFile 1 1 = .done (.error .memoryError)
    ∧ extractLine (grantUpTo (2 ^ 31)) oversizeFile 1 1 ≠ .done (.error .invalidSection)
    ∧ readSFHeader wrapFile = .ok wrapHeader
    ∧ wrapHeader.sections[((1 : Int) - 1).toNat]? = some wrapSection
    ∧ extractLine grantAll wrapFile 1 1 = .undefined
    ∧ extractLine grantAll wrapFile 1 1 ≠ .done (.error .invalidSection) := by
  have e1 : extractLine (grantUpTo (2 ^ 31)) oversizeFile 1 1
      = .done (.error .memoryError) := rfl
  have e2 : extractLine grantAll wrapFile 1 1 = .undefined := rfl
  refine ⟨rfl, rfl, by decide, rfl, rfl, e1, ?_, rfl, rfl, e2, ?_⟩
  · rw [e1]
    intro h
    have := Except.error.inj (Outcome.done.inj h)
    cases this
  · rw [e2]
    intro h
    cases h

/-! ## Extent of the header region -/

/-- C17, as amended.  When `readSFHeader` succeeds on a file of length `L` with
stored header size `h` and section count `n`, the region it decodes starts at
`L - h`, is `5 + 17 * n` bytes long and ends inside the file, so
`5 + 17 * n ≤ h ≤ L`; it ends at `L - 3`, right before the trailer, exactly
when `h = 17 * n + 8`.  The descriptors are those stored in that region. -/
theorem readSFHeader_region (file : File) (hdr : SFHeader)
    (h : readSFHeader file = .ok hdr) :
    hdr.header_size = storedHeaderSize file
    ∧ hdr.header_size ≤ file.length
    ∧ 5 + 17 * hdr.no_of_sections ≤ hdr.header_size
    ∧ (file.length - hdr.header_size) + (5 + 17 * hdr.no_of_sections) ≤ file.length
    ∧ ((file.length - hdr.header_size) + (5 + 17 * hdr.no_of_sections) = file.length - 3
        ↔ hdr.header_size = 17 * hdr.no_of_sections + 8)
    ∧ hdr.version = leValue (bytesAt file (file.length - hdr.header_size) 4)
    ∧ hdr.no_of_sections = leValue (bytesAt file (file.length - hdr.header_size + 4) 1)
    ∧ hdr.sections = (List.range hdr.no_of_sections).map
        (fun i => descAt file (file.length - hdr.header_size + 5 + 17 * i)) := by
  obtain ⟨h3, _, _, hle, hp, _, hn, hs, hv, hc, hsz, _⟩ := readSFHeader_ok file hdr h
  rw [← hc] at hs hn
  obtain ⟨e, _, b⟩ := readSections_ok file _ _ _ _ hs
  rw [hp, ← hsz] at e b hv hc
  rw [← hsz] at hle
  have hb : file.length - hdr.header_size + 5 + 17 * hdr.no_of_sections ≤ file.length := by
    rcases b with b | b
    · omega
    · exact b
  refine ⟨hsz, hle, by omega, by omega, by omega, hv, hc, ?_⟩
  rw [e, List.nil_append]

/-- The region statement on the sample file: header size 42 is `17 * 2 + 8`, and
the 39-byte region ends at `L - 3`. -/
theorem readSFHeader_region_witness :
    readSFHeader sampleFile = .ok sampleHeader
    ∧ sampleHeader.header_size = 17 * sampleHeader.no_of_sections + 8
    ∧ (sampleFile.length - sampleHeader.header_size) + (5 + 17 * sampleHeader.no_of_sections)
        = sampleFile.length - 3 :=
  have h := readSFHeader_region sampleFile sampleHeader rfl
  ⟨rfl, by decide, h.2.2.2.2.1.2 (by decide)⟩

/-- C17 as stated fails.  `overlapFile` (39 bytes, header size 39, 2 sections)
is accepted; its decoded region is the whole file, so it ends at `L`, not at
`L - 3`, and its last descriptor's size field contains the three trailer bytes.
On the sample file the region ends at `L - 3` but is 39 bytes long while the
header size is 42. -/
theorem readSFHeader_region_counterexample :
    readSFHeader overlapFile = .ok overlapHeader
    ∧ overlapHeader.header_size = 39 ∧ overlapHeader.no_of_sections = 2
    ∧ overlapFile.length = 39
    ∧ (overlapFile.length - 39) + (5 + 17 * 2) ≠ overlapFile.length - 3
    ∧ bytesAt overlapFile (overlapFile.length - 39 + 5 + 17 * 1 + 13) 4 = [0, 39, 0, 122]
    ∧ readSFHeader sampleFile = .ok sampleHeader
    ∧ 5 + 17 * sampleHeader.no_of_sections ≠ sampleHeader.header_size :=
  ⟨rfl, rfl, rfl, rfl, by decide, rfl, rfl, by decide⟩

/-! ## The scan of `extractLine` -/

/-- C18. For every payload and every line number that passes the range check
`1 ≤ lineNumber ≤ totalLines`, the scan over the indices `0..size` of the buffer
(payload and terminator) returns from inside the loop at a delimiter with
`currentLine = targetLine`; the failure after the loop is never reached and
`extractLine` reports success. -/
theorem scanLoop_reaches_target (payload : List Byte) (lineNumber : Int)
    (h1 : 1 ≤ lineNumber) (h2 : lineNumber ≤ (totalLines payload : Int)) :
    (∃ out, scanLoop (payload ++ [0]) ((totalLines payload : Int) - lineNumber + 1)
        (payload.length + 1) 0 0 1 = some out
      ∧ extractFromPayload payload lineNumber = .ok out)
    ∧ scanLoop (payload ++ [0]) ((totalLines payload : Int) - lineNumber + 1)
        (payload.length + 1) 0 0 1 ≠ none
    ∧ extractFromPayload payload lineNumber ≠ .error .invalidLine := by
  have hlen := totalLines_le payload
  have hidx : ((totalLines payload : Int) - lineNumber + 1 - 1).toNat
      < (splitWhere scanDelimiter payload).length := by
    rw [splitWhere_length]; omega
  have hscan := scanLoop_payload payload ((totalLines payload : Int) - lineNumber + 1)
    (by omega)
  rw [List.getElem?_eq_getElem hidx] at hscan
  have hex : extractFromPayload payload lineNumber
      = .ok (sanitize (splitWhere scanDelimiter payload)[((totalLines payload : Int)
          - lineNumber + 1 - 1).toNat]) := by
    unfold extractFromPayload
    simp only
    rw [if_neg (by omega), hscan]
    rfl
  refine ⟨⟨_, hscan, hex⟩, ?_, ?_⟩
  · rw [hscan]
    intro hc
    cases hc
  · rw [hex]
    intro hc
    cases hc

/-- The scan statement on the payload `"a\0b\nc"` (2 lines): for line number 2
the scan stops at the NUL byte and returns `"a"`. -/
theorem scanLoop_reaches_target_witness :
    totalLines [97, 0, 98, 10, 99] = 2
    ∧ extractFromPayload [97, 0, 98, 10, 99] 2 = .ok [97]
    ∧ extractFromPayload [97, 0, 98, 10, 99] 2 ≠ .error .invalidLine :=
  ⟨rfl, rfl, (scanLoop_reaches_target [97, 0, 98, 10, 99] 2 (by decide) (by decide)).2.2⟩

/-- C20, at the input where the code departs from it.  The header of
`wrapMixedFile` (160 bytes, 6 sections) parses; sections 1 and 2 count 13 lines
each; section 3 has offset 0 and size 0xFFFFFFFF, a byte range that extends past
the end of the file.  For that section `malloc` is asked for
`0xFFFFFFFF + 1 = 0` bytes and, once that block is granted, `read` stores the
160 bytes of the file past its end: `countLinesInSection` does not return 0 and
`hasRequiredSections` does not return true, where the claim states both. -/
theorem countLinesInSection_wrap_undefined :
    readSFHeader wrapMixedFile = .ok wrapMixedHeader
    ∧ wrapMixedFile.length = 160
    ∧ wrapMixedHeader.sections[2]? = some wrapMixedSection3
    ∧ wrapMixedFile.length < wrapMixedSection3.offset + wrapMixedSection3.size
    ∧ (payloadOf wrapMixedFile wrapMixedSection3).length ≠ wrapMixedSection3.size
    ∧ allocSize wrapMixedSection3.size = 0
    ∧ (read (lseekSet (openFile wrapMixedFile) wrapMixedSection3.offset)
        wrapMixedSection3.size).1.length = 160
    ∧ countLinesInSection grantAll (openFile wrapMixedFile) wrapMixedHeader 0 = .done 13
    ∧ countLinesInSection grantAll (openFile wrapMixedFile) wrapMixedHeader 1 = .done 13
    ∧ countLinesInSection grantAll (openFile wrapMixedFile) wrapMixedHeader 2 = .undefined
    ∧ countLinesInSection grantAll (openFile wrapMixedFile) wrapMixedHeader 2 ≠ .done 0
    ∧ hasRequiredSections (fun _ => grantAll) wrapMixedFile = .undefined
    ∧ hasRequiredSections (fun _ => grantAll) wrapMixedFile ≠ .done true :=
  ⟨rfl, rfl, rfl, by decide, by decide, rfl, rfl, rfl, rfl, rfl, by decide, rfl, by decide⟩

/-! ## Exact acceptance condition -/

/-- C21. `readSFHeader` succeeds on a file of length `L` exactly when `L ≥ 3`,
the last byte is `z`, and, with `h` the stored header size, the version taken at
`L - h` and `n` the byte at `L - h + 4`: `5 + 17 * n ≤ h ≤ L`, the version is in
[84,163], `n` is 2 or in [6,14], and each of the `n` descriptor types is among
80, 43, 38, 23, 81.  The header size is not compared with `17 * n + 8`: a file
whose descriptors run over the trailer (`h = 5 + 17 * n`) and a file with an
unused byte before the trailer are accepted, and so is a file whose descriptor
points beyond the end of the file. -/
theorem readSFHeader_accepts_iff :
    (∀ file : File,
      (∃ hdr, readSFHeader file = .ok hdr) ↔
        (3 ≤ file.length ∧ file.getLast? = some MAGIC_VALUE
          ∧ 5 + 17 * leValue (bytesAt file (file.length - storedHeaderSize file + 4) 1)
              ≤ storedHeaderSize file
          ∧ storedHeaderSize file ≤ file.length
          ∧ (84 ≤ leValue (bytesAt file (file.length - storedHeaderSize file) 4)
            ∧ leValue (bytesAt file (file.length - storedHeaderSize file) 4) ≤ 163)
          ∧ (leValue (bytesAt file (file.length - storedHeaderSize file + 4) 1) = 2
            ∨ (6 ≤ leValue (bytesAt file (file.length - storedHeaderSize file + 4) 1)
              ∧ leValue (bytesAt file (file.length - storedHeaderSize file + 4) 1) ≤ 14))
          ∧ ∀ i, i < leValue (bytesAt file (file.length - storedHeaderSize file + 4) 1) →
              (descAt file (file.length - storedHeaderSize file + 5 + 17 * i)).type
                ∈ [80, 43, 38, 23, 81]))
    ∧ (readSFHeader overlapFile = .ok overlapHeader
        ∧ overlapHeader.header_size = 5 + 17 * overlapHeader.no_of_sections)
    ∧ (readSFHeader gapFile = .ok gapHeader
        ∧ 17 * gapHeader.no_of_sections + 8 < gapHeader.header_size)
    ∧ (readSFHeader shortPayloadFile = .ok shortPayloadHeader
        ∧ shortPayloadHeader.sections[1]? = some shortSection
        ∧ shortPayloadFile.length < shortSection.offset) := by
  refine ⟨fun file => ⟨?_, ?_⟩, ⟨rfl, rfl⟩, ⟨rfl, by decide⟩, ⟨rfl, rfl, by decide⟩⟩
  · rintro ⟨hdr, h⟩
    obtain ⟨h3, hm, _, hle, hp, hver, hn, hs, _, _, _, _⟩ := readSFHeader_ok file hdr h
    obtain ⟨_, v, b⟩ := readSections_ok file _ _ _ _ hs
    rw [hp] at hver hn v b
    have hver2 : 84 ≤ leValue (bytesAt file (file.length - storedHeaderSize file) 4)
        ∧ leValue (bytesAt file (file.length - storedHeaderSize file) 4) ≤ 163 := hver
    refine ⟨h3, getLast_of_bytesAt_last file hm, ?_, hle, hver2, hn, ?_⟩
    · rcases b with b | b
      · omega
      · omega
    · intro i hi
      exact (validType_iff _).1 (v i hi)
  · rintro ⟨h3, hz, hlow, hle, hver, hn, hty⟩
    have hp := headerPos_of_le file hle
    have hm := bytesAt_last_of_getLast file hz
    have hv2 : ¬ (leValue (bytesAt file (file.length - storedHeaderSize file) 4) < MIN_VERSION
        ∨ leValue (bytesAt file (file.length - storedHeaderSize file) 4) > MAX_VERSION) := by
      unfold MIN_VERSION MAX_VERSION
      omega
    have hn2 : ¬ (leValue (bytesAt file (file.length - storedHeaderSize file + 4) 1) ≠ 2
        ∧ (leValue (bytesAt file (file.length - storedHeaderSize file + 4) 1) < 6
          ∨ leValue (bytesAt file (file.length - storedHeaderSize file + 4) 1) > 14)) := by
      omega
    rw [readSFHeader_eq file h3, if_neg (by simp [hm]), if_neg (by omega), hp, if_neg hv2,
      if_neg (by omega), if_neg hn2,
      readSections_complete file _ _ [] (by omega)
        (fun i hi => (validType_iff _).2 (hty i hi))]
    exact ⟨_, rfl⟩

end SF
